import Mathlib

/-!
# weave proxy: the CIDR policy, the router, the start-container hook, the JSON accessors
and the listeners

A shallow embedding of `proxy/proxy.go`, `proxy/start_container_interceptor.go` and
`proxy/json.go`.

Conventions of the embedding

* A Go `string` is a Lean `String`.  Go strings are byte sequences; the model covers the
  strings that are valid UTF-8, read rune by rune (`String.data`).
* A Go `error` is an `Option GoError`; `none` is Go's `nil`.
* A Go `[]string` is a `List String`; the `nil` slice and the empty slice are both `[]`
  (the program only ranges over, appends and joins these slices).
* A Go `map[string]interface{}` is a reference into a heap of maps, and the functions
  that take one pass the heap along; a reference stands for a map that is not `nil`.
* Calls that leave the program (container inspection, the network tool, the operating
  system) are parameters, and the calls made are returned as a trace.
-/

namespace Proxy

/-! ## Strings -/

/-- Go `strings.HasPrefix(s, p)`. -/
def HasPrefix (s p : String) : Bool :=
  p.data.isPrefixOf s.data

/-- Go slice expression `s[n:]`, used by the program only after a `HasPrefix` test against
an `n`-byte ASCII literal, where the first `n` bytes are the first `n` runes. -/
def sliceFrom (s : String) (n : Nat) : String :=
  ⟨s.data.drop n⟩

/-- Go `unicode.IsSpace`: the runes with the Unicode White_Space property. -/
def IsSpace (c : Char) : Bool :=
  let n := c.toNat
  (0x09 ≤ n && n ≤ 0x0D) || n == 0x20 || n == 0x85 || n == 0xA0 || n == 0x1680 ||
  (0x2000 ≤ n && n ≤ 0x200A) || n == 0x2028 || n == 0x2029 || n == 0x202F ||
  n == 0x205F || n == 0x3000

/-- The scanning loop of Go `strings.Fields`: `cur` holds, reversed, the runes of the field
being read (`cur = []` is Go's `start < 0`). -/
def fieldsLoop : List Char → List Char → List String
  | [], cur => if cur.isEmpty then [] else [⟨cur.reverse⟩]
  | c :: cs, cur =>
    if IsSpace c then
      if cur.isEmpty then fieldsLoop cs [] else ⟨cur.reverse⟩ :: fieldsLoop cs []
    else fieldsLoop cs (c :: cur)

/-- Go `strings.Fields(s)`: the maximal runs of non-space runes of `s`, in order. -/
def Fields (s : String) : List String :=
  fieldsLoop s.data []

/-- Go `strings.Join(elems, sep)`. -/
def Join (elems : List String) (sep : String) : String :=
  sep.intercalate elems

/-! ## Errors -/

/-- The error values the proxy produces: the two package-level sentinels and the values
built by `fmt.Errorf` / `errors.New` (or handed back by a collaborator). -/
inductive GoError where
  | ErrWeaveCIDRNone
  | ErrNoDefaultIPAM
  | New (msg : String)
  deriving DecidableEq, Repr

/-- The `Error()` method. -/
def GoError.Error : GoError → String
  | .ErrWeaveCIDRNone => "the container was created with the '-e WEAVE_CIDR=none' option"
  | .ErrNoDefaultIPAM =>
    "the container was created without specifying an IP address with '-e WEAVE_CIDR=...' and the proxy was started with the '--no-default-ipalloc' option"
  | .New msg => msg

/-! ## Configuration -/

/-- The fields of `Config` (embedded in `Proxy`) that the modelled functions read. -/
structure Config where
  NoDefaultIPAM : Bool
  NoRewriteHosts : Bool
  deriving DecidableEq, Repr

/-! ## CIDR policy -/

/-- The `for _, e := range env` loop of `weaveCIDRsFromConfig` together with the two
statements after it. -/
def weaveCIDRsFromEnv (proxy : Config) : List String → List String × Option GoError
  | [] =>
    if proxy.NoDefaultIPAM then ([], some .ErrNoDefaultIPAM) else ([], none)
  | e :: rest =>
    if HasPrefix e "WEAVE_CIDR=" then
      if sliceFrom e 11 = "none" then ([], some .ErrWeaveCIDRNone)
      else (Fields (sliceFrom e 11), none)
    else weaveCIDRsFromEnv proxy rest

/-- `(proxy *Proxy) weaveCIDRsFromConfig(networkMode, env)`. -/
def weaveCIDRsFromConfig (proxy : Config) (networkMode : String) (env : List String) :
    List String × Option GoError :=
  if networkMode = "host" || HasPrefix networkMode "container:" then
    ([], some (.New ("the container was created with the '--net=" ++ networkMode ++ "'")))
  else weaveCIDRsFromEnv proxy env

/-! ## Regular expressions

The five endpoint patterns are written with `regexp.MustCompile`.  The fragment of the
RE2 syntax they use is embedded as a datatype, and matching is decided by Brzozowski
derivatives.  Every pattern is built as `"^" ... "$"` with no flags, so `MatchString`
holds exactly when the whole string belongs to the language between the anchors. -/

/-- The constructs of the RE2 syntax used by the patterns of `proxy.go` (`alt` and `fail`
only arise as derivatives). -/
inductive Regex where
  | fail
  | empty
  | lit (c : Char)
  | cls (negated : Bool) (ranges : List (Char × Char))
  | cat (r s : Regex)
  | alt (r s : Regex)
  | opt (r : Regex)
  | star (r : Regex)
  deriving Repr

/-- Membership of a rune in a character class `[...]` or `[^...]`. -/
def classHas (negated : Bool) (ranges : List (Char × Char)) (c : Char) : Bool :=
  (ranges.any fun lohi => decide (lohi.1 ≤ c) && decide (c ≤ lohi.2)) != negated

/-- The regular expression of a literal piece of pattern text. -/
def Regex.str : List Char → Regex
  | [] => .empty
  | c :: cs => .cat (.lit c) (Regex.str cs)

/-- Whether a regular expression accepts the empty string. -/
def Regex.nullable : Regex → Bool
  | .fail => false
  | .empty => true
  | .lit _ => false
  | .cls _ _ => false
  | .cat r s => r.nullable && s.nullable
  | .alt r s => r.nullable || s.nullable
  | .opt _ => true
  | .star _ => true

/-- Brzozowski derivative of a regular expression by a rune. -/
def Regex.deriv : Regex → Char → Regex
  | .fail, _ => .fail
  | .empty, _ => .fail
  | .lit a, c => if a = c then .empty else .fail
  | .cls n rs, c => if classHas n rs c then .empty else .fail
  | .cat r s, c =>
    if r.nullable then .alt (.cat (r.deriv c) s) (s.deriv c) else .cat (r.deriv c) s
  | .alt r s, c => .alt (r.deriv c) (s.deriv c)
  | .opt r, c => r.deriv c
  | .star r, c => .cat (r.deriv c) (.star r)

/-- Whole-string match of a list of runes. -/
def Regex.rmatch : Regex → List Char → Bool
  | r, [] => r.nullable
  | r, c :: cs => (r.deriv c).rmatch cs

/-- The method `(*Regexp).MatchString` for a pattern anchored by `^` and `$`. -/
def Regex.MatchString (re : Regex) (s : String) : Bool :=
  re.rmatch s.data

/-- The class `[0-9\.]`. -/
def digitOrDot : Regex := .cls false [('0', '9'), ('.', '.')]

/-- The class `[^/]`. -/
def notSlash : Regex := .cls true [('/', '/')]

/-- `dockerAPIEndpoint(endpoint)`: `"^(/v[0-9\\.]*)?/" + endpoint + "$"`, the endpoint
given parsed. -/
def dockerAPIEndpoint (endpoint : Regex) : Regex :=
  .cat (.opt (.cat (.lit '/') (.cat (.lit 'v') (.star digitOrDot)))) (.cat (.lit '/') endpoint)

/-- `dockerAPIEndpoint("containers/create")`. -/
def containerCreateRegexp : Regex :=
  dockerAPIEndpoint (Regex.str "containers/create".data)

/-- `dockerAPIEndpoint("containers/[^/]*/(re)?start")`. -/
def containerStartRegexp : Regex :=
  dockerAPIEndpoint
    (.cat (Regex.str "containers/".data)
      (.cat (.star notSlash)
        (.cat (.lit '/') (.cat (.opt (Regex.str "re".data)) (Regex.str "start".data)))))

/-- `dockerAPIEndpoint("containers/[^/]*/json")`. -/
def containerInspectRegexp : Regex :=
  dockerAPIEndpoint
    (.cat (Regex.str "containers/".data) (.cat (.star notSlash) (Regex.str "/json".data)))

/-- `dockerAPIEndpoint("containers/[^/]*/exec")`. -/
def execCreateRegexp : Regex :=
  dockerAPIEndpoint
    (.cat (Regex.str "containers/".data) (.cat (.star notSlash) (Regex.str "/exec".data)))

/-- `dockerAPIEndpoint("exec/[^/]*/json")`. -/
def execInspectRegexp : Regex :=
  dockerAPIEndpoint
    (.cat (Regex.str "exec/".data) (.cat (.star notSlash) (Regex.str "/json".data)))

/-! ## Router -/

/-- The implementations of the `interceptor` interface that `ServeHTTP` instantiates. -/
inductive Interceptor where
  | createContainerInterceptor
  | startContainerInterceptor
  | inspectContainerInterceptor
  | createExecInterceptor
  | inspectExecInterceptor
  | nullInterceptor
  deriving DecidableEq, Repr

/-- The `switch` of `(proxy *Proxy) ServeHTTP`: the interceptor `i` handed to
`proxy.Intercept` for the request path `r.URL.Path`. -/
def ServeHTTP (path : String) : Interceptor :=
  if containerCreateRegexp.MatchString path then .createContainerInterceptor
  else if containerStartRegexp.MatchString path then .startContainerInterceptor
  else if containerInspectRegexp.MatchString path then .inspectContainerInterceptor
  else if execCreateRegexp.MatchString path then .createExecInterceptor
  else if execInspectRegexp.MatchString path then .inspectExecInterceptor
  else .nullInterceptor

/-! ## Start-container hook -/

/-- The field `HostConfig` of `docker.Container`, as far as it is read. -/
structure HostConfig where
  NetworkMode : String
  deriving DecidableEq, Repr

/-- The field `Config` of `docker.Container`, as far as it is read. -/
structure ContainerConfig where
  Env : List String
  deriving DecidableEq, Repr

/-- The result of a container inspection (`*docker.Container`), as far as it is read. -/
structure Container where
  ID : String
  Config : ContainerConfig
  HostConfig : HostConfig
  deriving DecidableEq, Repr

/-- The collaborators of the hook, which live outside the modelled files:
`inspectContainerInPath(i.proxy.client, path)` and `callWeave(args...)`, the latter
returning standard output, standard error and the error of the invocation. -/
structure World where
  inspectContainerInPath : String → Except GoError Container
  callWeave : List String → String × String × Option GoError

/-- The observable actions of the hook, in the order they happen. -/
inductive Event where
  | inspect (path : String)
  | callWeave (args : List String)
  | logInfo (msg : String)
  | logWarning (msg : String)
  deriving DecidableEq, Repr

/-- The part of `*http.Response` the hook reads: `r.StatusCode` and `r.Request.URL.Path`. -/
structure Response where
  StatusCode : Int
  Path : String
  deriving DecidableEq, Repr

/-- The argument vector built by `InterceptResponse` between the `Log.Infof` and the call of
`callWeave`. -/
def attachArgs (proxy : Config) (cidrs : List String) (containerID : String) : List String :=
  let args := ["attach"]
  let args := args ++ cidrs
  let args := if !proxy.NoRewriteHosts then args ++ ["--rewrite-hosts"] else args
  args ++ ["--or-die", containerID]

/-- `(i *startContainerInterceptor) InterceptResponse(r)`: the returned error and the
actions performed. -/
def InterceptResponse (w : World) (proxy : Config) (r : Response) :
    Option GoError × List Event :=
  if r.StatusCode < 200 || r.StatusCode ≥ 300 then (none, [])
  else
    match w.inspectContainerInPath r.Path with
    | .error err => (some err, [.inspect r.Path])
    | .ok container =>
      match weaveCIDRsFromConfig proxy container.HostConfig.NetworkMode container.Config.Env with
      | (_, some err) =>
        (none, [.inspect r.Path,
          .logInfo ("Leaving container " ++ container.ID ++ " alone because " ++ err.Error)])
      | (cidrs, none) =>
        let attaching := Event.logInfo ("Attaching container " ++ container.ID ++
          " with WEAVE_CIDR \"" ++ Join cidrs " " ++ "\" to weave network")
        let args := attachArgs proxy cidrs container.ID
        match w.callWeave args with
        | (_, stderr, some _) =>
          (some (.New stderr), [.inspect r.Path, attaching, .callWeave args,
            .logWarning ("Attaching container " ++ container.ID ++
              " to weave network failed: " ++ stderr)])
        | (_, stderr, none) =>
          if stderr.length > 0 then
            (none, [.inspect r.Path, attaching, .callWeave args,
              .logWarning ("Attaching container " ++ container.ID ++
                " to weave network: " ++ stderr)])
          else (none, [.inspect r.Path, attaching, .callWeave args])

/-- The inspection calls among the actions. -/
def inspections (evs : List Event) : List String :=
  evs.filterMap fun e => match e with
    | .inspect p => some p
    | _ => none

/-- The network-tool invocations among the actions. -/
def invocations (evs : List Event) : List (List String) :=
  evs.filterMap fun e => match e with
    | .callWeave args => some args
    | _ => none

/-! ## Specification-side notions for the router -/

/-- The language of a regular expression: the strings it matches as a whole. -/
def Regex.Matches : Regex → List Char → Prop
  | .fail, _ => False
  | .empty, s => s = []
  | .lit a, s => s = [a]
  | .cls n rs, s => ∃ c, s = [c] ∧ classHas n rs c = true
  | .cat r t, s => ∃ a b, s = a ++ b ∧ r.Matches a ∧ t.Matches b
  | .alt r t, s => r.Matches s ∨ t.Matches s
  | .opt r, s => s = [] ∨ r.Matches s
  | .star r, s => ∃ L : List (List Char), s = L.flatten ∧ ∀ x ∈ L, r.Matches x

/-- The pieces of a path between its slashes. -/
def segments : List Char → List (List Char)
  | [] => [[]]
  | c :: cs =>
    if c = '/' then [] :: segments cs
    else match segments cs with
      | [] => [[c]]
      | seg :: segs => (c :: seg) :: segs

/-- The optional version prefix of a path, on runes: nothing, or `/v` followed by digits
and dots. -/
def IsVersionRunes (v : List Char) : Prop :=
  v = [] ∨ ∃ ds : List Char, v = '/' :: 'v' :: ds ∧ ∀ c ∈ ds, ('0' ≤ c ∧ c ≤ '9') ∨ c = '.'

/-- The optional version prefix of a path: nothing, or `/v` followed by any string of digits
and dots. -/
def IsVersionPrefix (v : String) : Prop :=
  IsVersionRunes v.data

/-- A path segment that is a version: `v` followed by digits and dots. -/
def isVersionSegment : List Char → Bool
  | [] => false
  | c :: ds => c == 'v' && ds.all fun d => (decide ('0' ≤ d) && decide (d ≤ '9')) || d == '.'

/-- The interceptor of an endpoint, read off the segments that follow the optional
version. -/
def endpointClass : List (List Char) → Interceptor
  | [a, b] =>
    if a = "containers".data ∧ b = "create".data then .createContainerInterceptor
    else .nullInterceptor
  | [a, _, b] =>
    if a = "containers".data then
      if b = "start".data ∨ b = "restart".data then .startContainerInterceptor
      else if b = "json".data then .inspectContainerInterceptor
      else if b = "exec".data then .createExecInterceptor
      else .nullInterceptor
    else if a = "exec".data ∧ b = "json".data then .inspectExecInterceptor
    else .nullInterceptor
  | _ => .nullInterceptor

/-- The interceptor of a path, read off its segments: the reference the router is
compared with. -/
def segClass : List (List Char) → Interceptor
  | [] :: a :: rest => if isVersionSegment a then endpointClass rest else endpointClass (a :: rest)
  | _ => .nullInterceptor

/-- The path `p` is one of the monitored templates behind the optional version prefix `v`:
`/containers/create`, `/containers/<id>/start`, `/containers/<id>/restart`,
`/containers/<id>/json`, `/containers/<id>/exec` or `/exec/<id>/json`, with `<id>` free
of `/`. -/
def MonitoredWith (v p : String) : Prop :=
  IsVersionPrefix v ∧
  (p = v ++ "/containers/create" ∨
    ∃ id : String, '/' ∉ id.data ∧
      (p = v ++ "/containers/" ++ id ++ "/start" ∨
       p = v ++ "/containers/" ++ id ++ "/restart" ∨
       p = v ++ "/containers/" ++ id ++ "/json" ∨
       p = v ++ "/containers/" ++ id ++ "/exec" ∨
       p = v ++ "/exec/" ++ id ++ "/json"))

/-- The path is of the form: optional version prefix, then a monitored template. -/
def Monitored (p : String) : Prop :=
  ∃ v : String, MonitoredWith v p

/-! ## JSON accessors (json.go)

Go maps are reference values: `lookupObject` writes into the map it is given and hands back
a map that stays shared with it.  The maps therefore live in a heap, a `map[string]interface{}`
value is a reference into it, and the accessors pass the heap along. -/

/-- The address of a `map[string]interface{}` in the heap. -/
abbrev Ref := Nat

/-- The dynamic values of an `interface{}` that the accessors tell apart: `nil`, the results
of JSON decoding (`bool`, `float64`, `string`, `[]interface{}`, `map[string]interface{}`)
and the native `[]string`.  The payload of `number` stands for the float and is never read. -/
inductive Value where
  | null
  | bool (b : Bool)
  | number (n : Int)
  | string (s : String)
  | strings (l : List String)
  | array (l : List Value)
  | object (ref : Ref)

/-- The entries of one map, in no significant order, each key at most once. -/
abbrev Object := List (String × Value)

/-- The maps allocated so far, by address. -/
abbrev Heap := List Object

/-- The read `iface, ok := m[key]` on the entries of a map: `none` is `ok = false`. -/
def mapIndex : Object → String → Option Value
  | [], _ => none
  | (k, v) :: rest, key => if k = key then some v else mapIndex rest key

/-- The write `m[key] = v` on the entries of a map. -/
def mapAssign : Object → String → Value → Object
  | [], key, v => [(key, v)]
  | (k, x) :: rest, key, v =>
    if k = key then (k, v) :: rest else (k, x) :: mapAssign rest key v

/-- The entries of the map at an address. -/
def Heap.load (h : Heap) (m : Ref) : Object :=
  h.getD m []

/-- The read `m[key]` through the heap. -/
def Heap.index (h : Heap) (m : Ref) (key : String) : Option Value :=
  mapIndex (h.load m) key

/-- The write `m[key] = v` through the heap. -/
def Heap.assign (h : Heap) (m : Ref) (key : String) (v : Value) : Heap :=
  h.set m (mapAssign (h.load m) key v)

/-- The allocation `map[string]interface{}{}`: the new address and the heap with the empty
map at it. -/
def Heap.alloc (h : Heap) : Ref × Heap :=
  (h.length, h ++ [[]])

/-- `type UnmarshalWrongTypeError struct { Field, Expected string; Got interface{} }`. -/
structure UnmarshalWrongTypeError where
  Field : String
  Expected : String
  Got : Value

/-- What the verb `%T` prints for a value. -/
def Value.typeName : Value → String
  | .null => "<nil>"
  | .bool _ => "bool"
  | .number _ => "float64"
  | .string _ => "string"
  | .strings _ => "[]string"
  | .array _ => "[]interface {}"
  | .object _ => "map[string]interface {}"

/-- `func (e *UnmarshalWrongTypeError) Error() string`. -/
def UnmarshalWrongTypeError.Error (e : UnmarshalWrongTypeError) : String :=
  "Wrong type for " ++ e.Field ++ " field, expected " ++ e.Expected ++ ", but got " ++
    e.Got.typeName

/-- `lookupObject(m, key)`: the returned map (`none` is the `nil` map), the returned error
and the heap afterwards. -/
def lookupObject (h : Heap) (m : Ref) (key : String) :
    (Option Ref × Option UnmarshalWrongTypeError) × Heap :=
  match h.index m key with
  | none =>
    let (result, h1) := h.alloc
    ((some result, none), h1.assign m key (.object result))
  | some .null =>
    let (result, h1) := h.alloc
    ((some result, none), h1.assign m key (.object result))
  | some (.object result) => ((some result, none), h)
  | some iface => ((none, some ⟨key, "object", iface⟩), h)

/-- `lookupString(m, key)`: the returned string, the returned error and the heap
afterwards. -/
def lookupString (h : Heap) (m : Ref) (key : String) :
    (String × Option UnmarshalWrongTypeError) × Heap :=
  match h.index m key with
  | none => (("", none), h)
  | some .null => (("", none), h)
  | some (.string result) => ((result, none), h)
  | some iface => (("", some ⟨key, "string", iface⟩), h)

/-- The loop `for _, s := range o` of `lookupStringArray`, `result` being the strings
appended so far. -/
def stringArrayLoop (key : String) (iface : Value) :
    List Value → List String → List String × Option UnmarshalWrongTypeError
  | [], result => (result, none)
  | .string s :: rest, result => stringArrayLoop key iface rest (result ++ [s])
  | _ :: _, _ => ([], some ⟨key, "array of strings", iface⟩)

/-- `lookupStringArray(m, key)`: the returned slice, the returned error and the heap
afterwards. -/
def lookupStringArray (h : Heap) (m : Ref) (key : String) :
    (List String × Option UnmarshalWrongTypeError) × Heap :=
  match h.index m key with
  | none => (([], none), h)
  | some .null => (([], none), h)
  | some (.strings o) => ((o, none), h)
  | some (.array o) => (stringArrayLoop key (.array o) o [], h)
  | some iface => (([], some ⟨key, "array of strings", iface⟩), h)

/-- The strings of a list of values, when all of them are strings. -/
def allStrings : List Value → Option (List String)
  | [] => some []
  | .string s :: rest => (allStrings rest).map (s :: ·)
  | _ :: _ => none

/-! ## Listeners (`Proxy.listen`) -/

/-- The first occurrence of `sep` in a string: what is before it and what is after it. -/
def cut (sep : List Char) : List Char → Option (List Char × List Char)
  | [] => none
  | c :: cs =>
    if sep.isPrefixOf (c :: cs) then some ([], (c :: cs).drop sep.length)
    else match cut sep cs with
      | some (before, after) => some (c :: before, after)
      | none => none

/-- The splitting of Go `strings.SplitN` on runes, for a separator that is not empty and a
count that is not negative. -/
def splitN (sep : List Char) : Nat → List Char → List (List Char)
  | 0, _ => []
  | 1, s => [s]
  | n + 2, s =>
    match cut sep s with
    | none => [s]
    | some (before, after) => before :: splitN sep (n + 1) after

/-- Go `strings.SplitN(s, sep, n)`, for `sep` not empty and `n ≥ 0`. -/
def SplitN (s sep : String) (n : Nat) : List String :=
  (splitN sep.data n s.data).map String.mk

/-- The first statement of `listen`: the protocol and the address of a listen-address
specification. -/
def protoAndAddrOf (protoAndAddr : String) : String × String :=
  match SplitN protoAndAddr "://" 2 with
  | [proto, addr] => (proto, addr)
  | _ =>
    if HasPrefix protoAndAddr "/" then ("unix", protoAndAddr) else ("tcp", protoAndAddr)

/-- The constant `dockerSock`. -/
def dockerSock : String := "/var/run/docker.sock"

/-- A `net.Listener`: the socket `net.Listen` handed out, or a listener wrapped by
`tls.NewListener`. -/
inductive Listener where
  | socket (handle : Nat)
  | tls (inner : Listener)
  deriving DecidableEq, Repr

/-- What `listen` reads of an `os.FileInfo`: `stat.Mode()` and, when `stat.Sys()` is a
`*syscall.Stat_t`, its `Uid` and `Gid`. -/
structure FileInfo where
  Mode : Nat
  Sys : Option (Nat × Nat)
  deriving DecidableEq, Repr

/-- The operating system as `listen` sees it: the results of `net.Listen`, `os.Remove`,
`os.IsNotExist`, `os.Stat`, `os.Chmod` and `os.Chown`. -/
structure System where
  netListen : String → String → Except GoError Nat
  osRemove : String → Option GoError
  osIsNotExist : GoError → Bool
  osStat : String → Except GoError FileInfo
  osChmod : String → Nat → Option GoError
  osChown : String → Nat → Nat → Option GoError

/-- The system calls made, in order. -/
inductive Syscall where
  | listen (proto addr : String)
  | remove (path : String)
  | stat (path : String)
  | chmod (path : String) (mode : Nat)
  | chown (path : String) (uid gid : Nat)
  deriving DecidableEq, Repr

/-- `copyOwnerAndPermissions(from, to)`: the returned error and the calls made. -/
def copyOwnerAndPermissions (sys : System) (src dst : String) :
    Option GoError × List Syscall :=
  match sys.osStat src with
  | .error err => (some err, [.stat src])
  | .ok stat =>
    match sys.osChmod dst stat.Mode with
    | some err => (some err, [.stat src, .chmod dst stat.Mode])
    | none =>
      match stat.Sys with
      | none => (none, [.stat src, .chmod dst stat.Mode])
      | some (uid, gid) =>
        match sys.osChown dst uid gid with
        | some err => (some err, [.stat src, .chmod dst stat.Mode, .chown dst uid gid])
        | none => (none, [.stat src, .chmod dst stat.Mode, .chown dst uid gid])

/-- How a call of `listen` ends: `Log.Fatalf` stops the process, or the call returns its
three results (`none` for the `nil` listener and the `nil` error). -/
inductive ListenResult where
  | fatal (format : String) (arg : String)
  | returned (listener : Option Listener) (normalisedAddr : String) (err : Option GoError)
  deriving DecidableEq, Repr

/-- The `unix` case of `listen` from `net.Listen` on, the stale socket being out of the
way: `removed` holds the call of `os.Remove` already made. -/
def listenUnix (sys : System) (proto addr : String) (removed : List Syscall) :
    ListenResult × List Syscall :=
  match sys.netListen proto addr with
  | .error err => (.returned none "" (some err), removed ++ [.listen proto addr])
  | .ok handle =>
    match copyOwnerAndPermissions sys dockerSock addr with
    | (some err, calls) =>
      (.returned none "" (some err), removed ++ [.listen proto addr] ++ calls)
    | (none, calls) =>
      (.returned (some (.socket handle)) (proto ++ "://" ++ addr) none,
        removed ++ [.listen proto addr] ++ calls)

/-- `(proxy *Proxy) listen(protoAndAddr)`, with `tlsEnabled` for
`proxy.TLSConfig.enabled()`: how the call ends and the system calls it made. -/
def listen (sys : System) (tlsEnabled : Bool) (protoAndAddr : String) :
    ListenResult × List Syscall :=
  let proto := (protoAndAddrOf protoAndAddr).1
  let addr := (protoAndAddrOf protoAndAddr).2
  if proto = "tcp" then
    match sys.netListen proto addr with
    | .error err => (.returned none "" (some err), [.listen proto addr])
    | .ok handle =>
      let listener := if tlsEnabled then Listener.tls (.socket handle) else .socket handle
      (.returned (some listener) (proto ++ "://" ++ addr) none, [.listen proto addr])
  else if proto = "unix" then
    match sys.osRemove addr with
    | some err =>
      if !sys.osIsNotExist err then (.returned none "" (some err), [.remove addr])
      else listenUnix sys proto addr [.remove addr]
    | none => listenUnix sys proto addr [.remove addr]
  else (.fatal "Invalid protocol format: %q" proto, [])

/-- The cases of the `switch` of `ServeHTTP`, in the order of the source. -/
def routeTable : List (Regex × Interceptor) :=
  [(containerCreateRegexp, .createContainerInterceptor),
   (containerStartRegexp, .startContainerInterceptor),
   (containerInspectRegexp, .inspectContainerInterceptor),
   (execCreateRegexp, .createExecInterceptor),
   (execInspectRegexp, .inspectExecInterceptor)]

/-- A `switch` over a list of cases, first match first, `nullInterceptor` by default. -/
def dispatch : List (Regex × Interceptor) → String → Interceptor
  | [], _ => .nullInterceptor
  | (re, i) :: rest, path => if re.MatchString path then i else dispatch rest path

/-! ## Lemmas on strings -/

theorem hasPrefix_append (p v : String) : HasPrefix (p ++ v) p = true := by
  simp [HasPrefix, List.isPrefixOf_iff_prefix]

theorem length_eq_data_length (p : String) : p.length = p.data.length := by
  cases p; rfl

theorem sliceFrom_append (p v : String) : sliceFrom (p ++ v) p.length = v := by
  apply String.ext
  rw [length_eq_data_length]
  simp [sliceFrom]

theorem eq_append_of_hasPrefix (e p : String) (h : HasPrefix e p = true) :
    e = p ++ sliceFrom e p.length := by
  obtain ⟨t, ht⟩ := List.isPrefixOf_iff_prefix.mp h
  apply String.ext
  rw [length_eq_data_length]
  simp [sliceFrom, ← ht]

theorem fieldsLoop_eq_nil (cs cur : List Char) :
    fieldsLoop cs cur = [] ↔ cur = [] ∧ ∀ c ∈ cs, IsSpace c = true := by
  induction cs generalizing cur with
  | nil => cases cur <;> simp [fieldsLoop]
  | cons c cs ih =>
    by_cases hc : IsSpace c = true
    · cases cur with
      | nil => simp [fieldsLoop, hc, ih]
      | cons d ds => simp [fieldsLoop, hc]
    · simp [fieldsLoop, hc, ih]

theorem fields_eq_nil (v : String) : Fields v = [] ↔ ∀ c ∈ v.data, IsSpace c = true := by
  simp [Fields, fieldsLoop_eq_nil]

/-- What the scanning loop returns: fields are non-empty and free of white space, and put
end to end they are the pending field followed by the input without its white space. -/
theorem fieldsLoop_spec (cs cur : List Char) (hcur : ∀ c ∈ cur, IsSpace c = false) :
    (∀ f ∈ fieldsLoop cs cur, f.data ≠ [] ∧ ∀ c ∈ f.data, IsSpace c = false) ∧
    ((fieldsLoop cs cur).map String.data).flatten
      = cur.reverse ++ cs.filter (fun c => !IsSpace c) := by
  induction cs generalizing cur with
  | nil =>
    cases cur with
    | nil => simp [fieldsLoop]
    | cons d ds =>
      have hrev : ∀ c ∈ (d :: ds).reverse, IsSpace c = false :=
        fun c hc => hcur c (List.mem_reverse.mp hc)
      simpa [fieldsLoop] using hrev
  | cons c cs ih =>
    by_cases hc : IsSpace c = true
    · have h0 := ih [] (by simp)
      cases cur with
      | nil => simpa [fieldsLoop, hc] using h0
      | cons d ds =>
        simp only [fieldsLoop, hc]
        refine ⟨?_, ?_⟩
        · intro f hf
          simp only [List.isEmpty_cons, Bool.false_eq_true, if_false] at hf
          rcases List.mem_cons.mp hf with hfd | hfr
          · rw [hfd]
            exact ⟨by simp, fun c hc => hcur c (List.mem_reverse.mp hc)⟩
          · exact h0.1 f hfr
        · simp [h0.2, hc]
    · have hc0 : IsSpace c = false := by simpa using hc
      have h1 := ih (c :: cur) (by
        intro x hx
        rcases List.mem_cons.mp hx with rfl | hx
        · exact hc0
        · exact hcur x hx)
      simpa [fieldsLoop, hc0] using h1

/-! ## Correctness of the matcher -/

theorem nullable_iff (r : Regex) : r.nullable = true ↔ r.Matches [] := by
  induction r with
  | fail => simp [Regex.nullable, Regex.Matches]
  | empty => simp [Regex.nullable, Regex.Matches]
  | lit a => simp [Regex.nullable, Regex.Matches]
  | cls n rs => simp [Regex.nullable, Regex.Matches]
  | cat r t ihr iht =>
    simp only [Regex.nullable, Regex.Matches, Bool.and_eq_true, ihr, iht]
    constructor
    · rintro ⟨hr, ht⟩
      exact ⟨[], [], rfl, hr, ht⟩
    · rintro ⟨a, b, hab, hr, ht⟩
      obtain ⟨rfl, rfl⟩ := List.append_eq_nil.mp hab.symm
      exact ⟨hr, ht⟩
  | alt r t ihr iht => simp [Regex.nullable, Regex.Matches, ihr, iht]
  | opt r _ => simp [Regex.nullable, Regex.Matches]
  | star r _ =>
    simp only [Regex.nullable, Regex.Matches, true_iff]
    exact ⟨[], rfl, by simp⟩

theorem deriv_matches (r : Regex) (c : Char) (s : List Char) :
    (r.deriv c).Matches s ↔ r.Matches (c :: s) := by
  induction r generalizing s with
  | fail => simp [Regex.deriv, Regex.Matches]
  | empty => simp [Regex.deriv, Regex.Matches]
  | lit a =>
    by_cases h : a = c
    · simp [Regex.deriv, Regex.Matches, h]
    · have h2 : ¬ c = a := fun e => h e.symm
      simp [Regex.deriv, Regex.Matches, h, h2]
  | cls n rs =>
    by_cases h : classHas n rs c = true
    · simp only [Regex.deriv, h, if_true, Regex.Matches]
      constructor
      · rintro rfl
        exact ⟨c, rfl, h⟩
      · rintro ⟨d, hd, _⟩
        simpa using (List.cons.inj hd).2
    · simp only [Regex.deriv, h, Regex.Matches, false_iff]
      rintro ⟨d, hd, hcl⟩
      obtain ⟨rfl, -⟩ := List.cons.inj hd
      exact h hcl
  | cat r t ihr iht =>
    have key : (Regex.cat r t).Matches (c :: s) ↔
        (r.Matches [] ∧ t.Matches (c :: s)) ∨
        ∃ a b, s = a ++ b ∧ r.Matches (c :: a) ∧ t.Matches b := by
      simp only [Regex.Matches]
      constructor
      · rintro ⟨a, b, hab, hr, ht⟩
        cases a with
        | nil =>
          left
          simp only [List.nil_append] at hab
          exact ⟨hr, hab ▸ ht⟩
        | cons d a =>
          right
          obtain ⟨rfl, rfl⟩ := List.cons.inj hab
          exact ⟨a, b, rfl, hr, ht⟩
      · rintro (⟨hr, ht⟩ | ⟨a, b, rfl, hr, ht⟩)
        · exact ⟨[], c :: s, rfl, hr, ht⟩
        · exact ⟨c :: a, b, rfl, hr, ht⟩
    rw [key]
    by_cases hn : r.nullable = true
    · have hr0 : r.Matches [] := (nullable_iff r).mp hn
      simp only [Regex.deriv, hn, if_true, Regex.Matches, ihr, iht, hr0, true_and]
      exact or_comm
    · have hr0 : ¬ r.Matches [] := fun h => hn ((nullable_iff r).mpr h)
      simp only [Regex.deriv, hn, Regex.Matches, ihr, hr0, false_and, false_or]
  | alt r t ihr iht => simp [Regex.deriv, Regex.Matches, ihr, iht]
  | opt r ihr => simp [Regex.deriv, Regex.Matches, ihr]
  | star r ihr =>
    simp only [Regex.deriv, Regex.Matches, ihr]
    constructor
    · rintro ⟨a, b, rfl, hr, L, rfl, hL⟩
      refine ⟨(c :: a) :: L, by simp, ?_⟩
      intro x hx
      rcases List.mem_cons.mp hx with rfl | hx
      · exact hr
      · exact hL x hx
    · rintro ⟨L, hs, hL⟩
      induction L with
      | nil => simp at hs
      | cons x L ih =>
        cases x with
        | nil =>
          exact ih (by simpa using hs) (fun y hy => hL y (List.mem_cons_of_mem _ hy))
        | cons d x =>
          simp only [List.flatten_cons, List.cons_append] at hs
          obtain ⟨rfl, rfl⟩ := List.cons.inj hs
          exact ⟨x, L.flatten, rfl, hL _ (List.mem_cons_self _ _), L, rfl,
            fun y hy => hL y (List.mem_cons_of_mem _ hy)⟩

theorem rmatch_iff (r : Regex) (s : List Char) : r.rmatch s = true ↔ r.Matches s := by
  induction s generalizing r with
  | nil => simpa [Regex.rmatch] using nullable_iff r
  | cons c s ih => simp [Regex.rmatch, ih, deriv_matches]

/-! ## The languages of the endpoint patterns -/

theorem cat_matches (r t : Regex) (s : List Char) :
    (Regex.cat r t).Matches s ↔ ∃ a b, s = a ++ b ∧ r.Matches a ∧ t.Matches b :=
  Iff.rfl

theorem opt_matches (r : Regex) (s : List Char) :
    (Regex.opt r).Matches s ↔ s = [] ∨ r.Matches s :=
  Iff.rfl

theorem lit_matches (c : Char) (s : List Char) : (Regex.lit c).Matches s ↔ s = [c] :=
  Iff.rfl

theorem str_matches (l s : List Char) : (Regex.str l).Matches s ↔ s = l := by
  induction l generalizing s with
  | nil => simp [Regex.str, Regex.Matches]
  | cons c l ih =>
    simp only [Regex.str, cat_matches, lit_matches, ih]
    constructor
    · rintro ⟨a, b, rfl, rfl, rfl⟩
      rfl
    · rintro rfl
      exact ⟨[c], l, rfl, rfl, rfl⟩

theorem flatten_singletons (s : List Char) : (s.map fun c => [c]).flatten = s := by
  induction s with
  | nil => rfl
  | cons c s ih => simp [ih]

theorem star_cls_matches (n : Bool) (rs : List (Char × Char)) (s : List Char) :
    (Regex.star (.cls n rs)).Matches s ↔ ∀ c ∈ s, classHas n rs c = true := by
  simp only [Regex.Matches]
  constructor
  · rintro ⟨L, rfl, hL⟩ c hc
    obtain ⟨x, hx, hcx⟩ := List.mem_flatten.mp hc
    obtain ⟨d, rfl, hd⟩ := hL x hx
    simpa [List.mem_singleton.mp hcx] using hd
  · intro h
    refine ⟨s.map fun c => [c], (flatten_singletons s).symm, ?_⟩
    intro x hx
    obtain ⟨c, hc, rfl⟩ := List.mem_map.mp hx
    exact ⟨c, rfl, h c hc⟩

theorem notSlash_has (c : Char) : classHas true [('/', '/')] c = true ↔ c ≠ '/' := by
  simp only [classHas, List.any_cons, List.any_nil, Bool.or_false, bne_iff_ne, ne_eq,
    Bool.and_eq_true, decide_eq_true_eq]
  constructor
  · intro h hc
    exact h (by subst hc; decide)
  · intro h hc
    exact h (le_antisymm hc.2 hc.1)

theorem digitOrDot_has (c : Char) :
    classHas false [('0', '9'), ('.', '.')] c = true ↔ ('0' ≤ c ∧ c ≤ '9') ∨ c = '.' := by
  simp only [classHas, List.any_cons, List.any_nil, Bool.or_false, bne_iff_ne, ne_eq,
    Bool.not_eq_false, Bool.or_eq_true, Bool.and_eq_true, decide_eq_true_eq]
  constructor
  · rintro (h | h)
    · exact Or.inl h
    · exact Or.inr (le_antisymm h.2 h.1)
  · rintro (h | h)
    · exact Or.inl h
    · right
      subst h
      decide

theorem notSlash_star_matches (s : List Char) :
    (Regex.star notSlash).Matches s ↔ '/' ∉ s := by
  rw [notSlash, star_cls_matches]
  constructor
  · intro h hs
    exact (notSlash_has _).mp (h _ hs) rfl
  · intro h c hc
    exact (notSlash_has c).mpr (fun e => h (e ▸ hc))

theorem digitOrDot_star_matches (s : List Char) :
    (Regex.star digitOrDot).Matches s ↔ ∀ c ∈ s, ('0' ≤ c ∧ c ≤ '9') ∨ c = '.' := by
  rw [digitOrDot, star_cls_matches]
  constructor
  · intro h c hc
    exact (digitOrDot_has c).mp (h c hc)
  · intro h c hc
    exact (digitOrDot_has c).mpr (h c hc)

/-- The language of `dockerAPIEndpoint(endpoint)`: an optional version, a slash, and a
string of the endpoint. -/
theorem dockerAPIEndpoint_matches (ep : Regex) (s : List Char) :
    (dockerAPIEndpoint ep).Matches s ↔
      ∃ v t, IsVersionRunes v ∧ ep.Matches t ∧ s = v ++ '/' :: t := by
  simp only [dockerAPIEndpoint, cat_matches, opt_matches, lit_matches,
    digitOrDot_star_matches, IsVersionRunes]
  constructor
  · rintro ⟨v, b, rfl, hv, a1, t, rfl, rfl, ht⟩
    refine ⟨v, t, ?_, ht, rfl⟩
    rcases hv with rfl | ⟨a2, b2, rfl, rfl, a3, ds, rfl, rfl, hds⟩
    · exact Or.inl rfl
    · exact Or.inr ⟨ds, rfl, hds⟩
  · rintro ⟨v, t, hv, ht, rfl⟩
    refine ⟨v, '/' :: t, rfl, ?_, ['/'], t, rfl, rfl, ht⟩
    rcases hv with rfl | ⟨ds, rfl, hds⟩
    · exact Or.inl rfl
    · exact Or.inr ⟨['/'], 'v' :: ds, rfl, rfl, ['v'], ds, rfl, rfl, hds⟩

/-- The language of an endpoint `<a>[^/]*<b>` with literal `a` and `b`. -/
theorem idEndpoint_matches (a b t : List Char) :
    (Regex.cat (Regex.str a) (.cat (.star notSlash) (Regex.str b))).Matches t ↔
      ∃ id, '/' ∉ id ∧ t = a ++ id ++ b := by
  simp only [cat_matches, str_matches, notSlash_star_matches]
  constructor
  · rintro ⟨_, _, rfl, rfl, id, _, rfl, hid, rfl⟩
    exact ⟨id, hid, by simp⟩
  · rintro ⟨id, hid, rfl⟩
    exact ⟨a, id ++ b, by simp, rfl, id, b, rfl, hid, rfl⟩

/-- The language of an endpoint `<a>[^/]*/(<x>)?<y>` with literal `a`, `x` and `y`. -/
theorem optEndpoint_matches (a x y t : List Char) :
    (Regex.cat (Regex.str a)
      (.cat (.star notSlash)
        (.cat (.lit '/') (.cat (.opt (Regex.str x)) (Regex.str y))))).Matches t
    ↔ ∃ id, '/' ∉ id ∧ (t = a ++ id ++ '/' :: y ∨ t = a ++ id ++ '/' :: (x ++ y)) := by
  simp only [cat_matches, opt_matches, lit_matches, str_matches, notSlash_star_matches]
  constructor
  · rintro ⟨_, _, rfl, rfl, id, _, rfl, hid, _, _, rfl, rfl, o, _, rfl, ho, rfl⟩
    refine ⟨id, hid, ?_⟩
    rcases ho with rfl | rfl
    · left; simp
    · right; simp
  · rintro ⟨id, hid, rfl | rfl⟩
    · exact ⟨a, id ++ '/' :: y, by simp, rfl, id, '/' :: y, rfl, hid, ['/'], y, rfl, rfl,
        [], y, rfl, Or.inl rfl, rfl⟩
    · exact ⟨a, id ++ '/' :: (x ++ y), by simp, rfl, id, '/' :: (x ++ y), rfl, hid,
        ['/'], x ++ y, rfl, rfl, x, y, rfl, Or.inr rfl, rfl⟩

/-! ## Segments of the matched paths -/

theorem segments_of_not_mem (a : List Char) (ha : '/' ∉ a) : segments a = [a] := by
  induction a with
  | nil => rfl
  | cons c a ih =>
    have hc : c ≠ '/' := fun e => ha (by simp [e])
    have ha2 : '/' ∉ a := fun h => ha (List.mem_cons_of_mem _ h)
    simp [segments, hc, ih ha2]

theorem segments_append_slash (a b : List Char) (ha : '/' ∉ a) :
    segments (a ++ '/' :: b) = a :: segments b := by
  induction a with
  | nil => simp [segments]
  | cons c a ih =>
    have hc : c ≠ '/' := fun e => ha (by simp [e])
    have ha2 : '/' ∉ a := fun h => ha (List.mem_cons_of_mem _ h)
    simp [segments, hc, ih ha2]

theorem segments_slash (b : List Char) : segments ('/' :: b) = [] :: segments b := by
  simp [segments]

theorem length_segments (s : List Char) : (segments s).length = s.count '/' + 1 := by
  induction s with
  | nil => rfl
  | cons c s ih =>
    by_cases hc : c = '/'
    · subst hc
      simp [segments, ih]
    · have hc2 : (c == '/') = false := by simpa using hc
      cases hseg : segments s with
      | nil => simp [hseg] at ih
      | cons seg segs =>
        rw [hseg] at ih
        simp only [List.length_cons] at ih
        simp [segments, hc, hseg, List.count_cons, hc2, ih]

theorem isVersionSegment_iff (ds : List Char) :
    isVersionSegment ('v' :: ds) = true ↔ ∀ c ∈ ds, ('0' ≤ c ∧ c ≤ '9') ∨ c = '.' := by
  simp [isVersionSegment]

theorem version_not_slash (ds : List Char) (hds : ∀ c ∈ ds, ('0' ≤ c ∧ c ≤ '9') ∨ c = '.') :
    '/' ∉ 'v' :: ds := by
  intro h
  rcases List.mem_cons.mp h with h | h
  · exact absurd h (by decide)
  · rcases hds _ h with h1 | h1
    · exact absurd h1.1 (by decide)
    · exact absurd h1 (by decide)

/-- Segments of a path that starts with an optional version and a slash. -/
theorem segments_version (v t : List Char) (hv : IsVersionRunes v) :
    (v = [] ∧ segments (v ++ '/' :: t) = [] :: segments t) ∨
    ∃ ds, v = '/' :: 'v' :: ds ∧ isVersionSegment ('v' :: ds) = true ∧
      segments (v ++ '/' :: t) = [] :: ('v' :: ds) :: segments t := by
  rcases hv with rfl | ⟨ds, rfl, hds⟩
  · left
    exact ⟨rfl, segments_slash t⟩
  · right
    refine ⟨ds, rfl, (isVersionSegment_iff ds).mpr hds, ?_⟩
    have h := segments_append_slash ('v' :: ds) t (version_not_slash ds hds)
    simp only [List.cons_append] at h ⊢
    rw [segments_slash, h]

/-- The class of a path matched by `dockerAPIEndpoint(endpoint)` is the class of the
endpoint, when the endpoint does not begin with a version segment. -/
theorem segClass_of_endpoint (ep : Regex) (I : Interceptor)
    (hep : ∀ t, ep.Matches t → ∃ a rest, segments t = a :: rest ∧
      isVersionSegment a = false ∧ endpointClass (a :: rest) = I)
    (s : List Char) (hs : (dockerAPIEndpoint ep).Matches s) :
    segClass (segments s) = I := by
  obtain ⟨v, t, hv, ht, rfl⟩ := (dockerAPIEndpoint_matches ep s).mp hs
  obtain ⟨a, rest, hseg, ha, hcl⟩ := hep t ht
  rcases segments_version v t hv with ⟨-, h⟩ | ⟨ds, -, hds, h⟩
  · rw [h, hseg]
    simp [segClass, ha, hcl]
  · rw [h, hseg]
    simp [segClass, hds, hcl]

theorem segments_two (a b : List Char) (ha : '/' ∉ a) (hb : '/' ∉ b) :
    segments (a ++ '/' :: b) = [a, b] := by
  rw [segments_append_slash a b ha, segments_of_not_mem b hb]

theorem segments_three (a id b : List Char) (ha : '/' ∉ a) (hid : '/' ∉ id) (hb : '/' ∉ b) :
    segments (a ++ '/' :: (id ++ '/' :: b)) = [a, id, b] := by
  rw [segments_append_slash a _ ha, segments_two id b hid hb]

/-! ## Each pattern against the segment reference -/

theorem create_class (s : List Char) (h : containerCreateRegexp.Matches s) :
    segClass (segments s) = .createContainerInterceptor := by
  refine segClass_of_endpoint _ _ ?_ s h
  intro t ht
  have ht2 : t = "containers/create".data := (str_matches _ t).mp ht
  subst ht2
  exact ⟨"containers".data, ["create".data], by decide, by decide, by decide⟩

theorem start_class (s : List Char) (h : containerStartRegexp.Matches s) :
    segClass (segments s) = .startContainerInterceptor := by
  refine segClass_of_endpoint _ _ ?_ s h
  intro t ht
  obtain ⟨id, hid, rfl | rfl⟩ := (optEndpoint_matches _ _ _ t).mp ht
  · refine ⟨"containers".data, [id, "start".data], ?_, by decide, by simp [endpointClass]⟩
    have h3 := segments_three "containers".data id "start".data (by decide) hid (by decide)
    simpa using h3
  · refine ⟨"containers".data, [id, "restart".data], ?_, by decide, by simp [endpointClass]⟩
    have h3 := segments_three "containers".data id "restart".data (by decide) hid (by decide)
    simpa using h3

theorem inspect_class (s : List Char) (h : containerInspectRegexp.Matches s) :
    segClass (segments s) = .inspectContainerInterceptor := by
  refine segClass_of_endpoint _ _ ?_ s h
  intro t ht
  obtain ⟨id, hid, rfl⟩ := (idEndpoint_matches _ _ t).mp ht
  refine ⟨"containers".data, [id, "json".data], ?_, by decide, by simp [endpointClass]⟩
  have h3 := segments_three "containers".data id "json".data (by decide) hid (by decide)
  simpa using h3

theorem execCreate_class (s : List Char) (h : execCreateRegexp.Matches s) :
    segClass (segments s) = .createExecInterceptor := by
  refine segClass_of_endpoint _ _ ?_ s h
  intro t ht
  obtain ⟨id, hid, rfl⟩ := (idEndpoint_matches _ _ t).mp ht
  refine ⟨"containers".data, [id, "exec".data], ?_, by decide, by simp [endpointClass]⟩
  have h3 := segments_three "containers".data id "exec".data (by decide) hid (by decide)
  simpa using h3

theorem execInspect_class (s : List Char) (h : execInspectRegexp.Matches s) :
    segClass (segments s) = .inspectExecInterceptor := by
  refine segClass_of_endpoint _ _ ?_ s h
  intro t ht
  obtain ⟨id, hid, rfl⟩ := (idEndpoint_matches _ _ t).mp ht
  refine ⟨"exec".data, [id, "json".data], ?_, by decide, by simp [endpointClass]⟩
  have h3 := segments_three "exec".data id "json".data (by decide) hid (by decide)
  simpa using h3

theorem matchString_iff (re : Regex) (p : String) :
    re.MatchString p = true ↔ re.Matches p.data :=
  rmatch_iff re p.data

/-- The switch of `ServeHTTP`, case by case. -/
theorem ServeHTTP_cases (p : String) :
    (ServeHTTP p = .createContainerInterceptor ∧ containerCreateRegexp.Matches p.data) ∨
    (ServeHTTP p = .startContainerInterceptor ∧ containerStartRegexp.Matches p.data) ∨
    (ServeHTTP p = .inspectContainerInterceptor ∧ containerInspectRegexp.Matches p.data) ∨
    (ServeHTTP p = .createExecInterceptor ∧ execCreateRegexp.Matches p.data) ∨
    (ServeHTTP p = .inspectExecInterceptor ∧ execInspectRegexp.Matches p.data) ∨
    (ServeHTTP p = .nullInterceptor ∧ ¬ containerCreateRegexp.Matches p.data ∧
      ¬ containerStartRegexp.Matches p.data ∧ ¬ containerInspectRegexp.Matches p.data ∧
      ¬ execCreateRegexp.Matches p.data ∧ ¬ execInspectRegexp.Matches p.data) := by
  simp only [← matchString_iff]
  unfold ServeHTTP
  by_cases h1 : containerCreateRegexp.MatchString p = true
  · simp [h1]
  by_cases h2 : containerStartRegexp.MatchString p = true
  · simp [h1, h2]
  by_cases h3 : containerInspectRegexp.MatchString p = true
  · simp [h1, h2, h3]
  by_cases h4 : execCreateRegexp.MatchString p = true
  · simp [h1, h2, h3, h4]
  by_cases h5 : execInspectRegexp.MatchString p = true
  · simp [h1, h2, h3, h4, h5]
  · simp [h1, h2, h3, h4, h5]

/-- The router agrees with the segment reference on every path. -/
theorem ServeHTTP_eq_segClass_of_ne (p : String) (h : ServeHTTP p ≠ .nullInterceptor) :
    ServeHTTP p = segClass (segments p.data) := by
  rcases ServeHTTP_cases p with ⟨e, m⟩ | ⟨e, m⟩ | ⟨e, m⟩ | ⟨e, m⟩ | ⟨e, m⟩ | ⟨e, -⟩
  · rw [e, create_class _ m]
  · rw [e, start_class _ m]
  · rw [e, inspect_class _ m]
  · rw [e, execCreate_class _ m]
  · rw [e, execInspect_class _ m]
  · exact absurd e h

/-- A path whose segment class is null selects the null interceptor. -/
theorem ServeHTTP_null_of_segClass (p : String)
    (h : segClass (segments p.data) = .nullInterceptor) : ServeHTTP p = .nullInterceptor := by
  by_contra hne
  have := ServeHTTP_eq_segClass_of_ne p hne
  exact hne (this.trans h)

/-- A path matched by one of the patterns selects the interceptor of its segment class. -/
theorem ServeHTTP_of_matches (p : String)
    (h : containerCreateRegexp.Matches p.data ∨ containerStartRegexp.Matches p.data ∨
      containerInspectRegexp.Matches p.data ∨ execCreateRegexp.Matches p.data ∨
      execInspectRegexp.Matches p.data) :
    ServeHTTP p = segClass (segments p.data) := by
  apply ServeHTTP_eq_segClass_of_ne
  intro hnull
  rcases ServeHTTP_cases p with ⟨e, -⟩ | ⟨e, -⟩ | ⟨e, -⟩ | ⟨e, -⟩ | ⟨e, -⟩ | ⟨-, n1, n2, n3, n4, n5⟩
  · rw [e] at hnull; exact absurd hnull (by decide)
  · rw [e] at hnull; exact absurd hnull (by decide)
  · rw [e] at hnull; exact absurd hnull (by decide)
  · rw [e] at hnull; exact absurd hnull (by decide)
  · rw [e] at hnull; exact absurd hnull (by decide)
  · rcases h with h | h | h | h | h
    · exact n1 h
    · exact n2 h
    · exact n3 h
    · exact n4 h
    · exact n5 h

/-! ## Monitored paths and the patterns -/

theorem create_matches (v : String) (hv : IsVersionPrefix v) :
    containerCreateRegexp.Matches (v ++ "/containers/create").data := by
  rw [containerCreateRegexp, dockerAPIEndpoint_matches]
  exact ⟨v.data, "containers/create".data, hv, (str_matches _ _).mpr rfl, by simp⟩

theorem start_matches (v id : String) (hv : IsVersionPrefix v) (hid : '/' ∉ id.data) :
    containerStartRegexp.Matches (v ++ "/containers/" ++ id ++ "/start").data := by
  rw [containerStartRegexp, dockerAPIEndpoint_matches]
  exact ⟨v.data, "containers/".data ++ id.data ++ "/start".data, hv,
    (optEndpoint_matches _ _ _ _).mpr ⟨id.data, hid, Or.inl rfl⟩, by simp⟩

theorem restart_matches (v id : String) (hv : IsVersionPrefix v) (hid : '/' ∉ id.data) :
    containerStartRegexp.Matches (v ++ "/containers/" ++ id ++ "/restart").data := by
  rw [containerStartRegexp, dockerAPIEndpoint_matches]
  exact ⟨v.data, "containers/".data ++ id.data ++ "/restart".data, hv,
    (optEndpoint_matches _ _ _ _).mpr ⟨id.data, hid, Or.inr rfl⟩, by simp⟩

theorem inspect_matches (v id : String) (hv : IsVersionPrefix v) (hid : '/' ∉ id.data) :
    containerInspectRegexp.Matches (v ++ "/containers/" ++ id ++ "/json").data := by
  rw [containerInspectRegexp, dockerAPIEndpoint_matches]
  exact ⟨v.data, "containers/".data ++ id.data ++ "/json".data, hv,
    (idEndpoint_matches _ _ _).mpr ⟨id.data, hid, rfl⟩, by simp⟩

theorem execCreate_matches (v id : String) (hv : IsVersionPrefix v) (hid : '/' ∉ id.data) :
    execCreateRegexp.Matches (v ++ "/containers/" ++ id ++ "/exec").data := by
  rw [execCreateRegexp, dockerAPIEndpoint_matches]
  exact ⟨v.data, "containers/".data ++ id.data ++ "/exec".data, hv,
    (idEndpoint_matches _ _ _).mpr ⟨id.data, hid, rfl⟩, by simp⟩

theorem execInspect_matches (v id : String) (hv : IsVersionPrefix v) (hid : '/' ∉ id.data) :
    execInspectRegexp.Matches (v ++ "/exec/" ++ id ++ "/json").data := by
  rw [execInspectRegexp, dockerAPIEndpoint_matches]
  exact ⟨v.data, "exec/".data ++ id.data ++ "/json".data, hv,
    (idEndpoint_matches _ _ _).mpr ⟨id.data, hid, rfl⟩, by simp⟩

theorem route_create (v : String) (hv : IsVersionPrefix v) :
    ServeHTTP (v ++ "/containers/create") = .createContainerInterceptor :=
  (ServeHTTP_of_matches _ (Or.inl (create_matches v hv))).trans
    (create_class _ (create_matches v hv))

theorem route_start (v id : String) (hv : IsVersionPrefix v) (hid : '/' ∉ id.data) :
    ServeHTTP (v ++ "/containers/" ++ id ++ "/start") = .startContainerInterceptor :=
  (ServeHTTP_of_matches _ (Or.inr (Or.inl (start_matches v id hv hid)))).trans
    (start_class _ (start_matches v id hv hid))

theorem route_restart (v id : String) (hv : IsVersionPrefix v) (hid : '/' ∉ id.data) :
    ServeHTTP (v ++ "/containers/" ++ id ++ "/restart") = .startContainerInterceptor :=
  (ServeHTTP_of_matches _ (Or.inr (Or.inl (restart_matches v id hv hid)))).trans
    (start_class _ (restart_matches v id hv hid))

theorem route_inspect (v id : String) (hv : IsVersionPrefix v) (hid : '/' ∉ id.data) :
    ServeHTTP (v ++ "/containers/" ++ id ++ "/json") = .inspectContainerInterceptor :=
  (ServeHTTP_of_matches _ (Or.inr (Or.inr (Or.inl (inspect_matches v id hv hid))))).trans
    (inspect_class _ (inspect_matches v id hv hid))

theorem route_execCreate (v id : String) (hv : IsVersionPrefix v) (hid : '/' ∉ id.data) :
    ServeHTTP (v ++ "/containers/" ++ id ++ "/exec") = .createExecInterceptor :=
  (ServeHTTP_of_matches _
    (Or.inr (Or.inr (Or.inr (Or.inl (execCreate_matches v id hv hid)))))).trans
    (execCreate_class _ (execCreate_matches v id hv hid))

theorem route_execInspect (v id : String) (hv : IsVersionPrefix v) (hid : '/' ∉ id.data) :
    ServeHTTP (v ++ "/exec/" ++ id ++ "/json") = .inspectExecInterceptor :=
  (ServeHTTP_of_matches _
    (Or.inr (Or.inr (Or.inr (Or.inr (execInspect_matches v id hv hid)))))).trans
    (execInspect_class _ (execInspect_matches v id hv hid))

/-- A path of the monitored form never selects the null interceptor. -/
theorem ServeHTTP_ne_null_of_monitored (p : String) (h : Monitored p) :
    ServeHTTP p ≠ .nullInterceptor := by
  obtain ⟨v, hv, rfl | ⟨id, hid, rfl | rfl | rfl | rfl | rfl⟩⟩ := h
  · rw [route_create v hv]; decide
  · rw [route_start v id hv hid]; decide
  · rw [route_restart v id hv hid]; decide
  · rw [route_inspect v id hv hid]; decide
  · rw [route_execCreate v id hv hid]; decide
  · rw [route_execInspect v id hv hid]; decide

/-- A string matched by `dockerAPIEndpoint` of an `<a>[^/]*<b>` endpoint, as a path. -/
theorem path_of_idEndpoint (a b : String) (p : String)
    (h : (dockerAPIEndpoint
      (.cat (Regex.str a.data) (.cat (.star notSlash) (Regex.str b.data)))).Matches p.data) :
    ∃ v id : String, IsVersionPrefix v ∧ '/' ∉ id.data ∧ p = v ++ "/" ++ a ++ id ++ b := by
  obtain ⟨v, t, hv, ht, hp⟩ := (dockerAPIEndpoint_matches _ _).mp h
  obtain ⟨id, hid, rfl⟩ := (idEndpoint_matches _ _ t).mp ht
  exact ⟨⟨v⟩, ⟨id⟩, hv, hid, String.ext (by simp [hp])⟩

/-- A path that one of the five patterns matches is of the monitored form. -/
theorem monitored_of_matches (p : String)
    (h : containerCreateRegexp.Matches p.data ∨ containerStartRegexp.Matches p.data ∨
      containerInspectRegexp.Matches p.data ∨ execCreateRegexp.Matches p.data ∨
      execInspectRegexp.Matches p.data) :
    Monitored p := by
  rcases h with h | h | h | h | h
  · obtain ⟨v, t, hv, ht, hp⟩ := (dockerAPIEndpoint_matches _ _).mp h
    have ht2 : t = "containers/create".data := (str_matches _ t).mp ht
    subst ht2
    exact ⟨⟨v⟩, hv, Or.inl (String.ext (by simp [hp]))⟩
  · obtain ⟨v, t, hv, ht, hp⟩ := (dockerAPIEndpoint_matches _ _).mp h
    obtain ⟨id, hid, rfl | rfl⟩ := (optEndpoint_matches _ _ _ t).mp ht
    · exact ⟨⟨v⟩, hv, Or.inr ⟨⟨id⟩, hid, Or.inl (String.ext (by simp [hp]))⟩⟩
    · exact ⟨⟨v⟩, hv, Or.inr ⟨⟨id⟩, hid, Or.inr (Or.inl (String.ext (by simp [hp])))⟩⟩
  · obtain ⟨v, id, hv, hid, hp⟩ := path_of_idEndpoint "containers/" "/json" p h
    exact ⟨v, hv, Or.inr ⟨id, hid, Or.inr (Or.inr (Or.inl (by
      rw [hp]; apply String.ext; simp)))⟩⟩
  · obtain ⟨v, id, hv, hid, hp⟩ := path_of_idEndpoint "containers/" "/exec" p h
    exact ⟨v, hv, Or.inr ⟨id, hid, Or.inr (Or.inr (Or.inr (Or.inl (by
      rw [hp]; apply String.ext; simp))))⟩⟩
  · obtain ⟨v, id, hv, hid, hp⟩ := path_of_idEndpoint "exec/" "/json" p h
    exact ⟨v, hv, Or.inr ⟨id, hid, Or.inr (Or.inr (Or.inr (Or.inr (by
      rw [hp]; apply String.ext; simp))))⟩⟩

/-- The router selects a monitored interceptor exactly on the paths of the monitored form. -/
theorem monitored_iff (p : String) : Monitored p ↔ ServeHTTP p ≠ .nullInterceptor := by
  constructor
  · exact ServeHTTP_ne_null_of_monitored p
  · intro hne
    apply monitored_of_matches
    rcases ServeHTTP_cases p with ⟨-, m⟩ | ⟨-, m⟩ | ⟨-, m⟩ | ⟨-, m⟩ | ⟨-, m⟩ | ⟨e, -⟩
    · exact Or.inl m
    · exact Or.inr (Or.inl m)
    · exact Or.inr (Or.inr (Or.inl m))
    · exact Or.inr (Or.inr (Or.inr (Or.inl m)))
    · exact Or.inr (Or.inr (Or.inr (Or.inr m)))
    · exact absurd e hne

/-! ## Paths next to the monitored ones -/

/-- No monitored path ends with a slash. -/
theorem not_monitored_trailing_slash (p : String) : ¬ Monitored (p ++ "/") := by
  rintro ⟨v, -, h | ⟨id, -, h | h | h | h | h⟩⟩ <;>
  · have h2 := congrArg (fun s : String => s.data.reverse.head?) h
    simp at h2

theorem isVersionSegment_of_runes (seg : List Char) :
    IsVersionRunes ('/' :: seg) ↔ isVersionSegment seg = true := by
  constructor
  · rintro (h | ⟨ds, h, hds⟩)
    · exact absurd h (by simp)
    · obtain ⟨-, rfl⟩ := List.cons.inj h
      exact (isVersionSegment_iff ds).mpr hds
  · intro h
    cases seg with
    | nil => simp [isVersionSegment] at h
    | cons c ds =>
      have hc : c = 'v' := by
        simp only [isVersionSegment, Bool.and_eq_true, beq_iff_eq] at h
        exact h.1
      subst hc
      exact Or.inr ⟨ds, rfl, (isVersionSegment_iff ds).mp h⟩

/-- The segments of a monitored path after its version prefix. -/
theorem monitoredWith_segments (v p : String) (h : MonitoredWith v p) :
    ∃ t, p.data = v.data ++ '/' :: t ∧
      (segments t = ["containers".data, "create".data] ∨ ∃ a id b, segments t = [a, id, b]) := by
  obtain ⟨-, rfl | ⟨id, hid, rfl | rfl | rfl | rfl | rfl⟩⟩ := h
  · exact ⟨"containers/create".data, by simp, Or.inl (by decide)⟩
  · refine ⟨"containers".data ++ '/' :: (id.data ++ '/' :: "start".data), by simp, Or.inr ?_⟩
    exact ⟨_, _, _, segments_three _ _ _ (by decide) hid (by decide)⟩
  · refine ⟨"containers".data ++ '/' :: (id.data ++ '/' :: "restart".data), by simp, Or.inr ?_⟩
    exact ⟨_, _, _, segments_three _ _ _ (by decide) hid (by decide)⟩
  · refine ⟨"containers".data ++ '/' :: (id.data ++ '/' :: "json".data), by simp, Or.inr ?_⟩
    exact ⟨_, _, _, segments_three _ _ _ (by decide) hid (by decide)⟩
  · refine ⟨"containers".data ++ '/' :: (id.data ++ '/' :: "exec".data), by simp, Or.inr ?_⟩
    exact ⟨_, _, _, segments_three _ _ _ (by decide) hid (by decide)⟩
  · refine ⟨"exec".data ++ '/' :: (id.data ++ '/' :: "json".data), by simp, Or.inr ?_⟩
    exact ⟨_, _, _, segments_three _ _ _ (by decide) hid (by decide)⟩

/-- A monitored path behind one more leading segment selects the null interceptor, unless
the path had no version prefix and the segment is a version. -/
theorem route_extra_segment (v seg p : String) (h : MonitoredWith v p)
    (hseg : '/' ∉ seg.data) (hver : v ≠ "" ∨ ¬ IsVersionPrefix ("/" ++ seg)) :
    ServeHTTP ("/" ++ seg ++ p) = .nullInterceptor := by
  apply ServeHTTP_null_of_segClass
  obtain ⟨t, hp, ht⟩ := monitoredWith_segments v p h
  have hq : ("/" ++ seg ++ p).data = '/' :: (seg.data ++ (v.data ++ '/' :: t)) := by
    simp [hp]
  rw [hq, segments_slash]
  rcases segments_version v.data t h.1 with ⟨hv0, hs⟩ | ⟨ds, hvd, hds, hs⟩
  · have hnv : isVersionSegment seg.data = false := by
      rcases hver with hne | hnp
      · exact absurd (String.ext hv0) hne
      · cases hb : isVersionSegment seg.data
        · rfl
        · exact absurd ((isVersionSegment_of_runes seg.data).mpr hb) hnp
    rw [hv0, List.nil_append, segments_append_slash _ _ hseg]
    rcases ht with ht | ⟨a, id, b, ht⟩
    · rw [ht]
      simp [segClass, hnv, endpointClass]
    · rw [ht]
      simp [segClass, hnv, endpointClass]
  · have hsplit : seg.data ++ (v.data ++ '/' :: t) = seg.data ++ '/' :: ('v' :: ds ++ '/' :: t) := by
      rw [hvd]
      simp
    have hvs : segments ('v' :: ds ++ '/' :: t) = ('v' :: ds) :: segments t := by
      rw [hvd] at hs
      simp only [List.cons_append] at hs
      rw [segments_slash] at hs
      simpa using hs
    rw [hsplit, segments_append_slash _ _ hseg, hvs]
    rcases ht with ht | ⟨a, id, b, ht⟩
    · rw [ht]
      cases hb : isVersionSegment seg.data <;> simp [segClass, hb, endpointClass]
    · rw [ht]
      cases hb : isVersionSegment seg.data <;> simp [segClass, hb, endpointClass]

/-- A versioned path with two or more slashes after its first segment has too many
segments for any pattern. -/
theorem route_long (p : String) (v a X : List Char) (hv : IsVersionRunes v)
    (ha : '/' ∉ a) (hna : isVersionSegment a = false) (hX : 2 ≤ X.count '/')
    (hp : p.data = v ++ '/' :: (a ++ '/' :: X)) :
    ServeHTTP p = .nullInterceptor := by
  apply ServeHTTP_null_of_segClass
  have hlen := length_segments X
  obtain ⟨x1, x2, x3, rest, hX3⟩ : ∃ x1 x2 x3 rest, segments X = x1 :: x2 :: x3 :: rest := by
    cases hs : segments X with
    | nil => rw [hs] at hlen; simp at hlen
    | cons x1 l1 =>
      cases l1 with
      | nil => rw [hs] at hlen; simp at hlen; omega
      | cons x2 l2 =>
        cases l2 with
        | nil => rw [hs] at hlen; simp at hlen; omega
        | cons x3 rest => exact ⟨x1, x2, x3, rest, rfl⟩
  rw [hp]
  rcases segments_version v (a ++ '/' :: X) hv with ⟨-, hs⟩ | ⟨ds, -, hds, hs⟩
  · rw [hs, segments_append_slash _ _ ha, hX3]
    simp [segClass, hna, endpointClass]
  · rw [hs, segments_append_slash _ _ ha, hX3]
    simp [segClass, hds, endpointClass]

theorem count_slash_id (id b : List Char) (hid : '/' ∈ id) :
    2 ≤ (id ++ '/' :: b).count '/' := by
  have h1 : 0 < id.count '/' := List.count_pos_iff.mpr hid
  simp only [List.count_append, List.count_cons_self]
  omega

/-! ## Lemmas on the CIDR policy -/

/-- Entries without the `WEAVE_CIDR=` marker are passed over by the loop. -/
theorem weaveCIDRsFromEnv_skip (proxy : Config) (pre rest : List String)
    (hpre : ∀ x ∈ pre, HasPrefix x "WEAVE_CIDR=" = false) :
    weaveCIDRsFromEnv proxy (pre ++ rest) = weaveCIDRsFromEnv proxy rest := by
  induction pre with
  | nil => rfl
  | cons x xs ih =>
    have hx : HasPrefix x "WEAVE_CIDR=" = false := hpre x (by simp)
    have hxs : ∀ y ∈ xs, HasPrefix y "WEAVE_CIDR=" = false := fun y hy => hpre y (by simp [hy])
    simp [weaveCIDRsFromEnv, hx, ih hxs]

/-- The loop stops at the first entry carrying the marker and decides on its value. -/
theorem weaveCIDRsFromEnv_first (proxy : Config) (pre post : List String) (v : String)
    (hpre : ∀ x ∈ pre, HasPrefix x "WEAVE_CIDR=" = false) :
    weaveCIDRsFromEnv proxy (pre ++ ("WEAVE_CIDR=" ++ v) :: post) =
      if v = "none" then ([], some .ErrWeaveCIDRNone) else (Fields v, none) := by
  rw [weaveCIDRsFromEnv_skip proxy pre _ hpre]
  have h11 : sliceFrom ("WEAVE_CIDR=" ++ v) 11 = v := sliceFrom_append "WEAVE_CIDR=" v
  simp [weaveCIDRsFromEnv, hasPrefix_append, h11]

/-- Without any marked entry the loop runs to its end. -/
theorem weaveCIDRsFromEnv_absent (proxy : Config) (env : List String)
    (henv : ∀ x ∈ env, HasPrefix x "WEAVE_CIDR=" = false) :
    weaveCIDRsFromEnv proxy env =
      if proxy.NoDefaultIPAM then ([], some .ErrNoDefaultIPAM) else ([], none) := by
  have h := weaveCIDRsFromEnv_skip proxy env [] henv
  simpa [weaveCIDRsFromEnv] using h

/-- Every environment list either has no marked entry or splits at its first one. -/
theorem env_split (env : List String) :
    (∀ x ∈ env, HasPrefix x "WEAVE_CIDR=" = false) ∨
    ∃ pre v post, env = pre ++ ("WEAVE_CIDR=" ++ v) :: post ∧
      ∀ x ∈ pre, HasPrefix x "WEAVE_CIDR=" = false := by
  induction env with
  | nil => left; simp
  | cons e rest ih =>
    by_cases he : HasPrefix e "WEAVE_CIDR=" = true
    · right
      refine ⟨[], sliceFrom e 11, rest, ?_, by simp⟩
      have := eq_append_of_hasPrefix e "WEAVE_CIDR=" he
      simpa using this
    · rcases ih with hno | ⟨pre, v, post, hsplit, hpre⟩
      · left
        intro x hx
        rcases List.mem_cons.mp hx with rfl | hx
        · simpa using he
        · exact hno x hx
      · right
        refine ⟨e :: pre, v, post, by simp [hsplit], ?_⟩
        intro x hx
        rcases List.mem_cons.mp hx with rfl | hx
        · simpa using he
        · exact hpre x hx

theorem weaveCIDRsFromConfig_shared (proxy : Config) (networkMode : String) (env : List String)
    (hmode : networkMode = "host" ∨ HasPrefix networkMode "container:" = true) :
    weaveCIDRsFromConfig proxy networkMode env =
      ([], some (.New ("the container was created with the '--net=" ++ networkMode ++ "'"))) := by
  have hc : (decide (networkMode = "host") || HasPrefix networkMode "container:") = true := by
    rcases hmode with h | h <;> simp [h]
  simp only [weaveCIDRsFromConfig, hc, if_true]

theorem weaveCIDRsFromConfig_bridge (proxy : Config) (networkMode : String) (env : List String)
    (hhost : networkMode ≠ "host") (hshared : HasPrefix networkMode "container:" = false) :
    weaveCIDRsFromConfig proxy networkMode env = weaveCIDRsFromEnv proxy env := by
  simp [weaveCIDRsFromConfig, hhost, hshared]

/-! ## The CIDR policy: claims C1 to C5 -/

/-- C1: when the network mode is `"host"` or starts with `"container:"`, whatever the
environment list and whatever `NoDefaultIPAM`, the result is an error and no address list,
and the message of the error is `the container was created with the '--net=<mode>'`, which
contains the mode. -/
theorem weaveCIDRsFromConfig_shared_namespace (proxy : Config) (networkMode : String)
    (env : List String)
    (hmode : networkMode = "host" ∨ HasPrefix networkMode "container:" = true) :
    ∃ err : GoError, weaveCIDRsFromConfig proxy networkMode env = ([], some err) ∧
      err.Error = "the container was created with the '--net=" ++ networkMode ++ "'" ∧
      List.IsInfix networkMode.data err.Error.data := by
  refine ⟨.New ("the container was created with the '--net=" ++ networkMode ++ "'"), ?_, rfl, ?_⟩
  · exact weaveCIDRsFromConfig_shared proxy networkMode env hmode
  · exact ⟨"the container was created with the '--net=".data, "'".data, by simp [GoError.Error]⟩

theorem weaveCIDRsFromConfig_shared_namespace_witness :
    (("container:web" : String) = "host" ∨ HasPrefix "container:web" "container:" = true) ∧
    ∃ err : GoError,
      weaveCIDRsFromConfig ⟨true, false⟩ "container:web" ["WEAVE_CIDR=10.0.0.5/24"]
        = ([], some err) ∧
      err.Error = "the container was created with the '--net=" ++ "container:web" ++ "'" ∧
      List.IsInfix ("container:web" : String).data err.Error.data :=
  ⟨by decide, weaveCIDRsFromConfig_shared_namespace ⟨true, false⟩ "container:web"
    ["WEAVE_CIDR=10.0.0.5/24"] (by decide)⟩

/-- C2 as stated fails: an entry `WEAVE_CIDR=none` that comes after another `WEAVE_CIDR=`
entry is never looked at; the container is attached with the addresses of the first. -/
theorem weaveCIDRsFromConfig_none_not_first :
    ("bridge" : String) ≠ "host" ∧ HasPrefix "bridge" "container:" = false ∧
    "WEAVE_CIDR=none" ∈ ["WEAVE_CIDR=10.0.0.5/24", "WEAVE_CIDR=none"] ∧
    weaveCIDRsFromConfig ⟨false, false⟩ "bridge" ["WEAVE_CIDR=10.0.0.5/24", "WEAVE_CIDR=none"]
      = (["10.0.0.5/24"], none) ∧
    weaveCIDRsFromConfig ⟨false, false⟩ "bridge" ["WEAVE_CIDR=10.0.0.5/24", "WEAVE_CIDR=none"]
      ≠ ([], some .ErrWeaveCIDRNone) := by
  decide

/-- C2, amended: when the network mode is neither `"host"` nor prefixed by `"container:"`
and the first entry of the environment list that starts with `WEAVE_CIDR=` is exactly
`WEAVE_CIDR=none`, the result is `ErrWeaveCIDRNone` with no address list, whatever
`NoDefaultIPAM` and whatever the entries around it. -/
theorem weaveCIDRsFromConfig_first_none (proxy : Config) (networkMode : String)
    (pre post : List String)
    (hhost : networkMode ≠ "host") (hshared : HasPrefix networkMode "container:" = false)
    (hpre : ∀ x ∈ pre, HasPrefix x "WEAVE_CIDR=" = false) :
    weaveCIDRsFromConfig proxy networkMode (pre ++ "WEAVE_CIDR=none" :: post)
      = ([], some .ErrWeaveCIDRNone) := by
  rw [weaveCIDRsFromConfig_bridge proxy networkMode _ hhost hshared]
  have h := weaveCIDRsFromEnv_first proxy pre post "none" hpre
  simpa using h

theorem weaveCIDRsFromConfig_first_none_witness :
    ("bridge" : String) ≠ "host" ∧ HasPrefix "bridge" "container:" = false ∧
    (∀ x ∈ ["PATH=/bin"], HasPrefix x "WEAVE_CIDR=" = false) ∧
    weaveCIDRsFromConfig ⟨true, false⟩ "bridge"
      (["PATH=/bin"] ++ "WEAVE_CIDR=none" :: ["WEAVE_CIDR=10.0.0.5/24"])
      = ([], some .ErrWeaveCIDRNone) :=
  ⟨by decide, by decide, by decide,
    weaveCIDRsFromConfig_first_none ⟨true, false⟩ "bridge" ["PATH=/bin"]
      ["WEAVE_CIDR=10.0.0.5/24"] (by decide) (by decide) (by decide)⟩

/-- C3: when the network mode is neither `"host"` nor prefixed by `"container:"` and the
first entry of the environment list that starts with `WEAVE_CIDR=` has a value `v` other
than `none`, the result is, without error and whatever `NoDefaultIPAM`, the list
`strings.Fields(v)`: its elements are non-empty, contain no white space and, put end to end
in order, are `v` with its white space removed. -/
theorem weaveCIDRsFromConfig_first_value (proxy : Config) (networkMode : String)
    (pre post : List String) (v : String)
    (hhost : networkMode ≠ "host") (hshared : HasPrefix networkMode "container:" = false)
    (hpre : ∀ x ∈ pre, HasPrefix x "WEAVE_CIDR=" = false) (hv : v ≠ "none") :
    weaveCIDRsFromConfig proxy networkMode (pre ++ ("WEAVE_CIDR=" ++ v) :: post)
      = (Fields v, none) ∧
    (∀ a ∈ Fields v, a.data ≠ [] ∧ ∀ c ∈ a.data, IsSpace c = false) ∧
    ((Fields v).map String.data).flatten = v.data.filter (fun c => !IsSpace c) := by
  refine ⟨?_, ?_⟩
  · rw [weaveCIDRsFromConfig_bridge proxy networkMode _ hhost hshared,
      weaveCIDRsFromEnv_first proxy pre post v hpre]
    simp [hv]
  · simpa [Fields] using fieldsLoop_spec v.data [] (by simp)

theorem weaveCIDRsFromConfig_first_value_witness :
    ("bridge" : String) ≠ "host" ∧ HasPrefix "bridge" "container:" = false ∧
    (∀ x ∈ ["PATH=/bin"], HasPrefix x "WEAVE_CIDR=" = false) ∧
    ("10.0.0.5/24 10.0.0.6/24" : String) ≠ "none" ∧
    Fields "10.0.0.5/24 10.0.0.6/24" = ["10.0.0.5/24", "10.0.0.6/24"] ∧
    Fields "10.0.0.5/24" = ["10.0.0.5/24"] ∧
    (weaveCIDRsFromConfig ⟨true, false⟩ "bridge"
        (["PATH=/bin"] ++ ("WEAVE_CIDR=" ++ "10.0.0.5/24 10.0.0.6/24") :: ["WEAVE_CIDR=none"])
      = (Fields "10.0.0.5/24 10.0.0.6/24", none) ∧
    (∀ a ∈ Fields "10.0.0.5/24 10.0.0.6/24",
      a.data ≠ [] ∧ ∀ c ∈ a.data, IsSpace c = false) ∧
    ((Fields "10.0.0.5/24 10.0.0.6/24").map String.data).flatten
      = ("10.0.0.5/24 10.0.0.6/24" : String).data.filter (fun c => !IsSpace c)) :=
  ⟨by decide, by decide, by decide, by decide, by decide, by decide,
    weaveCIDRsFromConfig_first_value ⟨true, false⟩ "bridge" ["PATH=/bin"] ["WEAVE_CIDR=none"]
      "10.0.0.5/24 10.0.0.6/24" (by decide) (by decide) (by decide) (by decide)⟩

/-- C4: when the network mode is neither `"host"` nor prefixed by `"container:"` and no
entry of the environment list starts with `WEAVE_CIDR=`, the result is `ErrNoDefaultIPAM`
with no address list if `NoDefaultIPAM` is set, and the empty address list without error
if it is not. -/
theorem weaveCIDRsFromConfig_absent (proxy : Config) (networkMode : String)
    (env : List String)
    (hhost : networkMode ≠ "host") (hshared : HasPrefix networkMode "container:" = false)
    (henv : ∀ x ∈ env, HasPrefix x "WEAVE_CIDR=" = false) :
    (proxy.NoDefaultIPAM = true →
      weaveCIDRsFromConfig proxy networkMode env = ([], some .ErrNoDefaultIPAM)) ∧
    (proxy.NoDefaultIPAM = false →
      weaveCIDRsFromConfig proxy networkMode env = ([], none)) := by
  rw [weaveCIDRsFromConfig_bridge proxy networkMode _ hhost hshared,
    weaveCIDRsFromEnv_absent proxy env henv]
  constructor <;> intro h <;> simp [h]

theorem weaveCIDRsFromConfig_absent_witness :
    ("bridge" : String) ≠ "host" ∧ HasPrefix "bridge" "container:" = false ∧
    (∀ x ∈ ["PATH=/bin", "XWEAVE_CIDR=10.0.0.5/24"], HasPrefix x "WEAVE_CIDR=" = false) ∧
    ((Config.mk true false).NoDefaultIPAM = true →
      weaveCIDRsFromConfig ⟨true, false⟩ "bridge" ["PATH=/bin", "XWEAVE_CIDR=10.0.0.5/24"]
        = ([], some .ErrNoDefaultIPAM)) ∧
    ((Config.mk true false).NoDefaultIPAM = false →
      weaveCIDRsFromConfig ⟨true, false⟩ "bridge" ["PATH=/bin", "XWEAVE_CIDR=10.0.0.5/24"]
        = ([], none)) :=
  ⟨by decide, by decide, by decide,
    weaveCIDRsFromConfig_absent ⟨true, false⟩ "bridge" ["PATH=/bin", "XWEAVE_CIDR=10.0.0.5/24"]
      (by decide) (by decide) (by decide)⟩

/-- C5 as stated fails: with `NoDefaultIPAM` set, an entry `WEAVE_CIDR=` with an empty value
(or one of white space only) gives an attach outcome with the empty address list. -/
theorem weaveCIDRsFromConfig_blank_value :
    (Config.mk true false).NoDefaultIPAM = true ∧
    weaveCIDRsFromConfig ⟨true, false⟩ "bridge" ["WEAVE_CIDR="] = ([], none) ∧
    weaveCIDRsFromConfig ⟨true, false⟩ "bridge" ["WEAVE_CIDR=  "] = ([], none) := by
  decide

/-- C5, amended: with `NoDefaultIPAM` set, for every network mode and environment list the
outcome is a skip (an error and no address list), or it is an attach of the fields of the
value `v` of the first `WEAVE_CIDR=` entry; that address list is empty exactly when `v`
is empty or made of white space only.  In particular an environment list without a
`WEAVE_CIDR=` entry never gives an attach outcome. -/
theorem weaveCIDRsFromConfig_noDefaultIPAM (proxy : Config) (networkMode : String)
    (env : List String) (hipam : proxy.NoDefaultIPAM = true) :
    (∃ err : GoError, weaveCIDRsFromConfig proxy networkMode env = ([], some err)) ∨
    ∃ pre v post, env = pre ++ ("WEAVE_CIDR=" ++ v) :: post ∧
      (∀ x ∈ pre, HasPrefix x "WEAVE_CIDR=" = false) ∧
      weaveCIDRsFromConfig proxy networkMode env = (Fields v, none) ∧
      (Fields v = [] ↔ ∀ c ∈ v.data, IsSpace c = true) := by
  by_cases hmode : networkMode = "host" ∨ HasPrefix networkMode "container:" = true
  · left
    exact ⟨_, weaveCIDRsFromConfig_shared proxy networkMode env hmode⟩
  · have hhost : networkMode ≠ "host" := fun h => hmode (Or.inl h)
    have hshared : HasPrefix networkMode "container:" = false := by
      cases h : HasPrefix networkMode "container:"
      · rfl
      · exact absurd (Or.inr h) hmode
    rw [weaveCIDRsFromConfig_bridge proxy networkMode _ hhost hshared]
    rcases env_split env with hno | ⟨pre, v, post, hsplit, hpre⟩
    · left
      exact ⟨.ErrNoDefaultIPAM, by rw [weaveCIDRsFromEnv_absent proxy env hno]; simp [hipam]⟩
    · by_cases hv : v = "none"
      · left
        exact ⟨.ErrWeaveCIDRNone, by
          rw [hsplit, weaveCIDRsFromEnv_first proxy pre post v hpre]; simp [hv]⟩
      · right
        refine ⟨pre, v, post, hsplit, hpre, ?_, fields_eq_nil v⟩
        rw [hsplit, weaveCIDRsFromEnv_first proxy pre post v hpre]
        simp [hv]

theorem weaveCIDRsFromConfig_noDefaultIPAM_witness :
    (Config.mk true false).NoDefaultIPAM = true ∧
    ((∃ err : GoError,
        weaveCIDRsFromConfig ⟨true, false⟩ "bridge" ["WEAVE_CIDR=10.0.0.5/24"]
          = ([], some err)) ∨
      ∃ pre v post, ["WEAVE_CIDR=10.0.0.5/24"] = pre ++ ("WEAVE_CIDR=" ++ v) :: post ∧
        (∀ x ∈ pre, HasPrefix x "WEAVE_CIDR=" = false) ∧
        weaveCIDRsFromConfig ⟨true, false⟩ "bridge" ["WEAVE_CIDR=10.0.0.5/24"]
          = (Fields v, none) ∧
        (Fields v = [] ↔ ∀ c ∈ v.data, IsSpace c = true)) :=
  ⟨rfl, weaveCIDRsFromConfig_noDefaultIPAM ⟨true, false⟩ "bridge" ["WEAVE_CIDR=10.0.0.5/24"] rfl⟩

/-! ## The router: claims C6 and C7 -/

/-- C6: for every version prefix `v` (nothing, or `/v` followed by digits and dots) and every
id without `/`, the path `v/containers/create` selects `createContainerInterceptor`,
`v/containers/<id>/start` and `v/containers/<id>/restart` select
`startContainerInterceptor`, `v/containers/<id>/json` selects `inspectContainerInterceptor`,
`v/containers/<id>/exec` selects `createExecInterceptor` and `v/exec/<id>/json` selects
`inspectExecInterceptor`. -/
theorem ServeHTTP_monitored (v id : String) (hv : IsVersionPrefix v) (hid : '/' ∉ id.data) :
    ServeHTTP (v ++ "/containers/create") = .createContainerInterceptor ∧
    ServeHTTP (v ++ "/containers/" ++ id ++ "/start") = .startContainerInterceptor ∧
    ServeHTTP (v ++ "/containers/" ++ id ++ "/restart") = .startContainerInterceptor ∧
    ServeHTTP (v ++ "/containers/" ++ id ++ "/json") = .inspectContainerInterceptor ∧
    ServeHTTP (v ++ "/containers/" ++ id ++ "/exec") = .createExecInterceptor ∧
    ServeHTTP (v ++ "/exec/" ++ id ++ "/json") = .inspectExecInterceptor :=
  ⟨route_create v hv, route_start v id hv hid, route_restart v id hv hid,
    route_inspect v id hv hid, route_execCreate v id hv hid, route_execInspect v id hv hid⟩

theorem ServeHTTP_monitored_witness :
    IsVersionPrefix "/v1.15" ∧ '/' ∉ ("0a1b2c" : String).data ∧
    (ServeHTTP ("/v1.15" ++ "/containers/create") = .createContainerInterceptor ∧
    ServeHTTP ("/v1.15" ++ "/containers/" ++ "0a1b2c" ++ "/start")
      = .startContainerInterceptor ∧
    ServeHTTP ("/v1.15" ++ "/containers/" ++ "0a1b2c" ++ "/restart")
      = .startContainerInterceptor ∧
    ServeHTTP ("/v1.15" ++ "/containers/" ++ "0a1b2c" ++ "/json")
      = .inspectContainerInterceptor ∧
    ServeHTTP ("/v1.15" ++ "/containers/" ++ "0a1b2c" ++ "/exec") = .createExecInterceptor ∧
    ServeHTTP ("/v1.15" ++ "/exec/" ++ "0a1b2c" ++ "/json") = .inspectExecInterceptor) :=
  ⟨Or.inr ⟨"1.15".data, rfl, by decide⟩, by decide,
    ServeHTTP_monitored "/v1.15" "0a1b2c" (Or.inr ⟨"1.15".data, rfl, by decide⟩) (by decide)⟩

/-- C7: every path that is not of the form optional version prefix plus monitored template
selects `nullInterceptor`.  In particular so does every path with a trailing `/`, every
monitored path behind one more leading segment (unless the path had no version prefix and
the segment is itself a version), and every monitored template whose id contains `/`. -/
theorem ServeHTTP_unmonitored :
    (∀ p : String, ¬ Monitored p → ServeHTTP p = .nullInterceptor) ∧
    (∀ p : String, ServeHTTP (p ++ "/") = .nullInterceptor) ∧
    (∀ v seg p : String, MonitoredWith v p → '/' ∉ seg.data →
      (v ≠ "" ∨ ¬ IsVersionPrefix ("/" ++ seg)) →
      ServeHTTP ("/" ++ seg ++ p) = .nullInterceptor) ∧
    (∀ v id : String, IsVersionPrefix v → '/' ∈ id.data →
      ServeHTTP (v ++ "/containers/" ++ id ++ "/start") = .nullInterceptor ∧
      ServeHTTP (v ++ "/containers/" ++ id ++ "/restart") = .nullInterceptor ∧
      ServeHTTP (v ++ "/containers/" ++ id ++ "/json") = .nullInterceptor ∧
      ServeHTTP (v ++ "/containers/" ++ id ++ "/exec") = .nullInterceptor ∧
      ServeHTTP (v ++ "/exec/" ++ id ++ "/json") = .nullInterceptor) := by
  have hmain : ∀ p : String, ¬ Monitored p → ServeHTTP p = .nullInterceptor := by
    intro p hp
    by_contra hne
    exact hp ((monitored_iff p).mpr hne)
  refine ⟨hmain, fun p => hmain _ (not_monitored_trailing_slash p), route_extra_segment, ?_⟩
  intro v id hv hid
  refine ⟨?_, ?_, ?_, ?_, ?_⟩
  · exact route_long _ v.data "containers".data _ hv (by decide) (by decide)
      (count_slash_id id.data "start".data hid) (by simp)
  · exact route_long _ v.data "containers".data _ hv (by decide) (by decide)
      (count_slash_id id.data "restart".data hid) (by simp)
  · exact route_long _ v.data "containers".data _ hv (by decide) (by decide)
      (count_slash_id id.data "json".data hid) (by simp)
  · exact route_long _ v.data "containers".data _ hv (by decide) (by decide)
      (count_slash_id id.data "exec".data hid) (by simp)
  · exact route_long _ v.data "exec".data _ hv (by decide) (by decide)
      (count_slash_id id.data "json".data hid) (by simp)

theorem ServeHTTP_unmonitored_witness :
    ¬ Monitored "/version" ∧ ServeHTTP "/version" = .nullInterceptor ∧
    ServeHTTP ("/v1.15/containers/create" ++ "/") = .nullInterceptor ∧
    ServeHTTP ("/" ++ "api" ++ "/containers/0a1b2c/json") = .nullInterceptor ∧
    ServeHTTP ("/v1.15" ++ "/containers/" ++ "0a/1b" ++ "/start") = .nullInterceptor :=
  ⟨(monitored_iff "/version").not.mpr (by decide),
    ServeHTTP_unmonitored.1 "/version" ((monitored_iff "/version").not.mpr (by decide)),
    ServeHTTP_unmonitored.2.1 "/v1.15/containers/create",
    ServeHTTP_unmonitored.2.2.1 "" "api" "/containers/0a1b2c/json"
      ⟨Or.inl rfl, Or.inr ⟨"0a1b2c", by decide, Or.inr (Or.inr (Or.inl (by decide)))⟩⟩
      (by decide) (Or.inr (fun h => by
        have h2 := (isVersionSegment_of_runes "api".data).mp h
        exact absurd h2 (by decide))),
    (ServeHTTP_unmonitored.2.2.2 "/v1.15" "0a/1b" (Or.inr ⟨"1.15".data, rfl, by decide⟩)
      (by decide)).1⟩

/-! ## The start-container hook: claims C8 to C10 -/

/-- The hook on a response in the 2xx range whose container inspection succeeded and whose
CIDR policy gave an attach outcome. -/
theorem InterceptResponse_attach_eq (w : World) (proxy : Config) (r : Response)
    (container : Container) (cidrs : List String)
    (hstatus : 200 ≤ r.StatusCode ∧ r.StatusCode < 300)
    (hinspect : w.inspectContainerInPath r.Path = .ok container)
    (hcidrs : weaveCIDRsFromConfig proxy container.HostConfig.NetworkMode container.Config.Env
      = (cidrs, none)) :
    inspections (InterceptResponse w proxy r).2 = [r.Path] ∧
    invocations (InterceptResponse w proxy r).2 = [attachArgs proxy cidrs container.ID] := by
  have hs : ¬ (r.StatusCode < 200 ∨ 300 ≤ r.StatusCode) := by omega
  rcases hcw : w.callWeave (attachArgs proxy cidrs container.ID) with ⟨out, err, e⟩
  cases e with
  | some e => simp [InterceptResponse, hs, hinspect, hcidrs, hcw, inspections, invocations]
  | none =>
    by_cases hlen : err.length > 0
    · simp [InterceptResponse, hs, hinspect, hcidrs, hcw, hlen, inspections, invocations]
    · simp [InterceptResponse, hs, hinspect, hcidrs, hcw, hlen, inspections, invocations]

theorem getLast_two (l : List String) (a b : String) : (l ++ [a, b]).getLast? = some b := by
  have h : l ++ [a, b] = (l ++ [a]) ++ [b] := by simp
  rw [h, List.getLast?_append]
  simp

/-- The argument vector, spelled out. -/
theorem attachArgs_eq (proxy : Config) (cidrs : List String) (id : String) :
    attachArgs proxy cidrs id =
      ["attach"] ++ cidrs ++ (if proxy.NoRewriteHosts = false then ["--rewrite-hosts"] else [])
        ++ ["--or-die", id] := by
  cases h : proxy.NoRewriteHosts <;> simp [attachArgs, h]

/-- C8: on a 2xx response whose inspection succeeds and whose CIDR policy returns the
address list `cidrs` without error, the network tool is invoked exactly once, with the
argument vector `attach`, the addresses, `--rewrite-hosts` unless `NoRewriteHosts` is set,
`--or-die` and the container id: the id is the last argument, and `--rewrite-hosts`, when
added, stands immediately before `--or-die`. -/
theorem InterceptResponse_attach_args (w : World) (proxy : Config) (r : Response)
    (container : Container) (cidrs : List String)
    (hstatus : 200 ≤ r.StatusCode ∧ r.StatusCode < 300)
    (hinspect : w.inspectContainerInPath r.Path = .ok container)
    (hcidrs : weaveCIDRsFromConfig proxy container.HostConfig.NetworkMode container.Config.Env
      = (cidrs, none)) :
    invocations (InterceptResponse w proxy r).2 =
      [["attach"] ++ cidrs ++
        (if proxy.NoRewriteHosts = false then ["--rewrite-hosts"] else []) ++
        ["--or-die", container.ID]] ∧
    (["attach"] ++ cidrs ++
        (if proxy.NoRewriteHosts = false then ["--rewrite-hosts"] else []) ++
        ["--or-die", container.ID]).getLast? = some container.ID ∧
    (proxy.NoRewriteHosts = false →
      invocations (InterceptResponse w proxy r).2 =
        [["attach"] ++ cidrs ++ ["--rewrite-hosts", "--or-die", container.ID]]) ∧
    (proxy.NoRewriteHosts = true →
      invocations (InterceptResponse w proxy r).2 =
        [["attach"] ++ cidrs ++ ["--or-die", container.ID]]) := by
  have h := (InterceptResponse_attach_eq w proxy r container cidrs hstatus hinspect hcidrs).2
  rw [attachArgs_eq] at h
  refine ⟨h, getLast_two _ _ _, ?_, ?_⟩
  · intro hn
    rw [h]
    simp [hn]
  · intro hn
    rw [h]
    simp [hn]

theorem InterceptResponse_attach_args_witness :
    ((200 : Int) ≤ (Response.mk 204 "/v1.15/containers/0a1b2c/start").StatusCode ∧
      (Response.mk 204 "/v1.15/containers/0a1b2c/start").StatusCode < 300) ∧
    (World.mk (fun _ => .ok ⟨"0a1b2c", ⟨["WEAVE_CIDR=10.0.0.5/24 10.0.0.6/24"]⟩, ⟨"bridge"⟩⟩)
        (fun _ => ("", "", none))).inspectContainerInPath
      (Response.mk 204 "/v1.15/containers/0a1b2c/start").Path
      = .ok ⟨"0a1b2c", ⟨["WEAVE_CIDR=10.0.0.5/24 10.0.0.6/24"]⟩, ⟨"bridge"⟩⟩ ∧
    weaveCIDRsFromConfig ⟨false, false⟩ "bridge" ["WEAVE_CIDR=10.0.0.5/24 10.0.0.6/24"]
      = (["10.0.0.5/24", "10.0.0.6/24"], none) ∧
    invocations (InterceptResponse
        (World.mk (fun _ => .ok ⟨"0a1b2c", ⟨["WEAVE_CIDR=10.0.0.5/24 10.0.0.6/24"]⟩, ⟨"bridge"⟩⟩)
          (fun _ => ("", "", none)))
        ⟨false, false⟩ ⟨204, "/v1.15/containers/0a1b2c/start"⟩).2
      = [["attach", "10.0.0.5/24", "10.0.0.6/24", "--rewrite-hosts", "--or-die", "0a1b2c"]] :=
  ⟨by decide, rfl, by decide,
    (InterceptResponse_attach_args
      (World.mk (fun _ => .ok ⟨"0a1b2c", ⟨["WEAVE_CIDR=10.0.0.5/24 10.0.0.6/24"]⟩, ⟨"bridge"⟩⟩)
        (fun _ => ("", "", none)))
      ⟨false, false⟩ ⟨204, "/v1.15/containers/0a1b2c/start"⟩
      ⟨"0a1b2c", ⟨["WEAVE_CIDR=10.0.0.5/24 10.0.0.6/24"]⟩, ⟨"bridge"⟩⟩
      ["10.0.0.5/24", "10.0.0.6/24"] (by decide) rfl (by decide)).1⟩

/-- C9: when the status code of the response is below 200 or at least 300, the hook
returns no error and does nothing: no container inspection, no invocation of the network
tool, no log line.  The inspection is made, once and for the path of the request, exactly
when `200 ≤ status < 300`. -/
theorem InterceptResponse_status (w : World) (proxy : Config) (r : Response) :
    ((r.StatusCode < 200 ∨ 300 ≤ r.StatusCode) →
      InterceptResponse w proxy r = (none, []) ∧
      inspections (InterceptResponse w proxy r).2 = [] ∧
      invocations (InterceptResponse w proxy r).2 = []) ∧
    ((200 ≤ r.StatusCode ∧ r.StatusCode < 300) →
      inspections (InterceptResponse w proxy r).2 = [r.Path]) ∧
    (inspections (InterceptResponse w proxy r).2 ≠ [] ↔
      200 ≤ r.StatusCode ∧ r.StatusCode < 300) := by
  have hout : (r.StatusCode < 200 ∨ 300 ≤ r.StatusCode) →
      InterceptResponse w proxy r = (none, []) := by
    intro h
    simp [InterceptResponse, h]
  have hin : (200 ≤ r.StatusCode ∧ r.StatusCode < 300) →
      inspections (InterceptResponse w proxy r).2 = [r.Path] := by
    intro h
    have hs : ¬ (r.StatusCode < 200 ∨ 300 ≤ r.StatusCode) := by omega
    cases hi : w.inspectContainerInPath r.Path with
    | error e => simp [InterceptResponse, hs, hi, inspections]
    | ok container =>
      rcases hc : weaveCIDRsFromConfig proxy container.HostConfig.NetworkMode
        container.Config.Env with ⟨cidrs, e⟩
      cases e with
      | some e => simp [InterceptResponse, hs, hi, hc, inspections]
      | none => exact (InterceptResponse_attach_eq w proxy r container cidrs h hi hc).1
  refine ⟨fun h => ?_, hin, ?_⟩
  · rw [hout h]
    exact ⟨rfl, rfl, rfl⟩
  · constructor
    · intro hne
      by_contra hs
      have h : r.StatusCode < 200 ∨ 300 ≤ r.StatusCode := by omega
      rw [hout h] at hne
      exact hne rfl
    · intro h
      rw [hin h]
      simp

/-- C10: on a 2xx response whose inspection succeeds and whose CIDR policy returns an
error (a skip), the hook returns no error, logs the reason and does not invoke the network
tool. -/
theorem InterceptResponse_skip (w : World) (proxy : Config) (r : Response)
    (container : Container) (cidrs : List String) (err : GoError)
    (hstatus : 200 ≤ r.StatusCode ∧ r.StatusCode < 300)
    (hinspect : w.inspectContainerInPath r.Path = .ok container)
    (hskip : weaveCIDRsFromConfig proxy container.HostConfig.NetworkMode container.Config.Env
      = (cidrs, some err)) :
    (InterceptResponse w proxy r).1 = none ∧
    invocations (InterceptResponse w proxy r).2 = [] ∧
    (InterceptResponse w proxy r).2 = [.inspect r.Path,
      .logInfo ("Leaving container " ++ container.ID ++ " alone because " ++ err.Error)] := by
  have hs : ¬ (r.StatusCode < 200 ∨ 300 ≤ r.StatusCode) := by omega
  simp [InterceptResponse, hs, hinspect, hskip, invocations]

theorem InterceptResponse_skip_witness :
    ((200 : Int) ≤ (Response.mk 204 "/containers/0a1b2c/start").StatusCode ∧
      (Response.mk 204 "/containers/0a1b2c/start").StatusCode < 300) ∧
    (World.mk (fun _ => .ok ⟨"0a1b2c", ⟨["WEAVE_CIDR=none"]⟩, ⟨"bridge"⟩⟩)
        (fun _ => ("", "unreachable", some (.New "exit status 1")))).inspectContainerInPath
      (Response.mk 204 "/containers/0a1b2c/start").Path
      = .ok ⟨"0a1b2c", ⟨["WEAVE_CIDR=none"]⟩, ⟨"bridge"⟩⟩ ∧
    weaveCIDRsFromConfig ⟨false, false⟩ "bridge" ["WEAVE_CIDR=none"]
      = ([], some .ErrWeaveCIDRNone) ∧
    (InterceptResponse
        (World.mk (fun _ => .ok ⟨"0a1b2c", ⟨["WEAVE_CIDR=none"]⟩, ⟨"bridge"⟩⟩)
          (fun _ => ("", "unreachable", some (.New "exit status 1"))))
        ⟨false, false⟩ ⟨204, "/containers/0a1b2c/start"⟩).1 = none ∧
    invocations (InterceptResponse
        (World.mk (fun _ => .ok ⟨"0a1b2c", ⟨["WEAVE_CIDR=none"]⟩, ⟨"bridge"⟩⟩)
          (fun _ => ("", "unreachable", some (.New "exit status 1"))))
        ⟨false, false⟩ ⟨204, "/containers/0a1b2c/start"⟩).2 = [] :=
  have h := InterceptResponse_skip
    (World.mk (fun _ => .ok ⟨"0a1b2c", ⟨["WEAVE_CIDR=none"]⟩, ⟨"bridge"⟩⟩)
      (fun _ => ("", "unreachable", some (.New "exit status 1"))))
    ⟨false, false⟩ ⟨204, "/containers/0a1b2c/start"⟩
    ⟨"0a1b2c", ⟨["WEAVE_CIDR=none"]⟩, ⟨"bridge"⟩⟩ [] .ErrWeaveCIDRNone
    (by decide) rfl (by decide)
  ⟨by decide, rfl, by decide, h.1, h.2.1⟩


/-! ## Lemmas on maps and the heap -/

theorem mapIndex_mapAssign_self (o : Object) (key : String) (v : Value) :
    mapIndex (mapAssign o key v) key = some v := by
  induction o with
  | nil => simp [mapAssign, mapIndex]
  | cons e rest ih =>
    obtain ⟨k, x⟩ := e
    by_cases hk : k = key
    · simp [mapAssign, mapIndex, hk]
    · simp [mapAssign, mapIndex, hk, ih]

theorem mapIndex_mapAssign_of_ne (o : Object) (key k2 : String) (v : Value) (hne : k2 ≠ key) :
    mapIndex (mapAssign o key v) k2 = mapIndex o k2 := by
  have hne2 : ¬ key = k2 := fun e => hne e.symm
  induction o with
  | nil => simp [mapAssign, mapIndex, hne2]
  | cons e rest ih =>
    obtain ⟨k, x⟩ := e
    by_cases hk : k = key
    · subst hk
      simp [mapAssign, mapIndex, hne2]
    · by_cases hkk : k = k2
      · subst hkk
        simp [mapAssign, mapIndex, hk]
      · simp [mapAssign, mapIndex, hk, hkk, ih]

theorem load_alloc_of_lt (h : Heap) (r : Ref) (hr : r < h.length) :
    h.alloc.2.load r = h.load r := by
  simp [Heap.alloc, Heap.load, List.getD_eq_getElem?_getD, List.getElem?_append_left hr]

theorem load_alloc_new (h : Heap) : h.alloc.2.load h.alloc.1 = [] := by
  simp [Heap.alloc, Heap.load, List.getD_eq_getElem?_getD]

theorem load_assign_self (h : Heap) (m : Ref) (key : String) (v : Value) (hm : m < h.length) :
    (h.assign m key v).load m = mapAssign (h.load m) key v := by
  simp [Heap.assign, Heap.load, List.getD_eq_getElem?_getD, List.getElem?_set, hm]

theorem load_assign_of_ne (h : Heap) (m r : Ref) (key : String) (v : Value) (hne : r ≠ m) :
    (h.assign m key v).load r = h.load r := by
  have hne2 : ¬ m = r := fun e => hne e.symm
  simp [Heap.assign, Heap.load, List.getD_eq_getElem?_getD, List.getElem?_set, hne2]

theorem index_assign_self (h : Heap) (m : Ref) (key : String) (v : Value) (hm : m < h.length) :
    (h.assign m key v).index m key = some v := by
  rw [Heap.index, load_assign_self h m key v hm, mapIndex_mapAssign_self]

theorem index_assign_of_key_ne (h : Heap) (m : Ref) (key k2 : String) (v : Value)
    (hm : m < h.length) (hne : k2 ≠ key) :
    (h.assign m key v).index m k2 = h.index m k2 := by
  rw [Heap.index, load_assign_self h m key v hm, mapIndex_mapAssign_of_ne _ _ _ _ hne,
    Heap.index]

theorem index_assign_of_ref_ne (h : Heap) (m r : Ref) (key k2 : String) (v : Value)
    (hne : r ≠ m) : (h.assign m key v).index r k2 = h.index r k2 := by
  rw [Heap.index, load_assign_of_ne h m r key v hne, Heap.index]

theorem length_assign (h : Heap) (m : Ref) (key : String) (v : Value) :
    (h.assign m key v).length = h.length := by
  simp [Heap.assign]

/-! ## Lemmas on the accessors -/

/-- The creating branch of `lookupObject`. -/
theorem lookupObject_of_absent (h : Heap) (m : Ref) (key : String)
    (habs : h.index m key = none ∨ h.index m key = some .null) :
    lookupObject h m key =
      ((some h.length, none), h.alloc.2.assign m key (.object h.length)) := by
  rcases habs with e | e <;> simp [lookupObject, e, Heap.alloc]

/-- The returning branch of `lookupObject`. -/
theorem lookupObject_of_object (h : Heap) (m : Ref) (key : String) (r : Ref)
    (hobj : h.index m key = some (.object r)) :
    lookupObject h m key = ((some r, none), h) := by
  simp [lookupObject, hobj]

/-- The failing branch of `lookupObject`. -/
theorem lookupObject_of_other (h : Heap) (m : Ref) (key : String) (v : Value)
    (hv : h.index m key = some v) (hnull : v ≠ .null) (hobj : ∀ r, v ≠ .object r) :
    lookupObject h m key = ((none, some ⟨key, "object", v⟩), h) := by
  cases v with
  | null => exact absurd rfl hnull
  | object r => exact absurd rfl (hobj r)
  | bool b => simp [lookupObject, hv]
  | number n => simp [lookupObject, hv]
  | string s => simp [lookupObject, hv]
  | strings l => simp [lookupObject, hv]
  | array l => simp [lookupObject, hv]

/-- The failing branch of `lookupString`. -/
theorem lookupString_of_other (h : Heap) (m : Ref) (key : String) (v : Value)
    (hv : h.index m key = some v) (hnull : v ≠ .null) (hstr : ∀ s, v ≠ .string s) :
    lookupString h m key = (("", some ⟨key, "string", v⟩), h) := by
  cases v with
  | null => exact absurd rfl hnull
  | string s => exact absurd rfl (hstr s)
  | bool b => simp [lookupString, hv]
  | number n => simp [lookupString, hv]
  | object r => simp [lookupString, hv]
  | strings l => simp [lookupString, hv]
  | array l => simp [lookupString, hv]

/-- The two ways the loop of `lookupStringArray` ends. -/
theorem stringArrayLoop_cases (key : String) (iface : Value) (o : List Value)
    (acc : List String) :
    (∃ ss : List String, o = ss.map Value.string ∧
      stringArrayLoop key iface o acc = (acc ++ ss, none)) ∨
    (∃ pre x post, o = pre ++ x :: post ∧ (∀ s, x ≠ .string s) ∧
      stringArrayLoop key iface o acc = ([], some ⟨key, "array of strings", iface⟩)) := by
  induction o generalizing acc with
  | nil => exact Or.inl ⟨[], rfl, by simp [stringArrayLoop]⟩
  | cons x rest ih =>
    cases x with
    | string s =>
      rcases ih (acc ++ [s]) with ⟨ss, hss, hl⟩ | ⟨pre, y, post, hsplit, hy, hl⟩
      · exact Or.inl ⟨s :: ss, by simp [hss], by simp [stringArrayLoop, hl]⟩
      · exact Or.inr ⟨.string s :: pre, y, post, by simp [hsplit], hy,
          by simp [stringArrayLoop, hl]⟩
    | null => exact Or.inr ⟨[], _, rest, rfl, by simp, by simp [stringArrayLoop]⟩
    | bool b => exact Or.inr ⟨[], _, rest, rfl, by simp, by simp [stringArrayLoop]⟩
    | number n => exact Or.inr ⟨[], _, rest, rfl, by simp, by simp [stringArrayLoop]⟩
    | strings l => exact Or.inr ⟨[], _, rest, rfl, by simp, by simp [stringArrayLoop]⟩
    | array l => exact Or.inr ⟨[], _, rest, rfl, by simp, by simp [stringArrayLoop]⟩
    | object r => exact Or.inr ⟨[], _, rest, rfl, by simp, by simp [stringArrayLoop]⟩

theorem map_string_injective (ss ts : List String)
    (h : ss.map Value.string = ts.map Value.string) : ss = ts := by
  induction ss generalizing ts with
  | nil =>
    cases ts with
    | nil => rfl
    | cons t ts => simp at h
  | cons s ss ih =>
    cases ts with
    | nil => simp at h
    | cons t ts =>
      simp only [List.map_cons, List.cons.injEq, Value.string.injEq] at h
      rw [h.1, ih ts h.2]

theorem not_all_strings (pre post : List Value) (x : Value) (hx : ∀ s, x ≠ .string s)
    (ss : List String) : pre ++ x :: post ≠ ss.map Value.string := by
  intro h
  have hmem : x ∈ ss.map Value.string := h ▸ (by simp)
  obtain ⟨s, -, hs⟩ := List.mem_map.mp hmem
  exact hx s hs.symm

/-- The loop over a list of strings returns them. -/
theorem stringArrayLoop_strings (key : String) (iface : Value) (ss : List String) :
    stringArrayLoop key iface (ss.map Value.string) [] = (ss, none) := by
  rcases stringArrayLoop_cases key iface (ss.map Value.string) [] with
    ⟨ts, hts, hl⟩ | ⟨pre, x, post, hsplit, hx, -⟩
  · rw [hl, map_string_injective ss ts hts]
    simp
  · exact absurd hsplit.symm (not_all_strings pre post x hx ss)

/-- The loop over a list with an element that is no string fails. -/
theorem stringArrayLoop_other (key : String) (iface : Value) (pre post : List Value)
    (x : Value) (hx : ∀ s, x ≠ .string s) :
    stringArrayLoop key iface (pre ++ x :: post) [] =
      ([], some ⟨key, "array of strings", iface⟩) := by
  rcases stringArrayLoop_cases key iface (pre ++ x :: post) [] with
    ⟨ts, hts, -⟩ | ⟨-, -, -, -, -, hl⟩
  · exact absurd hts (not_all_strings pre post x hx ts)
  · exact hl

/-! ## The JSON accessors: claims C11 to C15 -/

/-- C11: for an allocated map `m` and a key that is absent from it or mapped to `nil`,
`lookupObject` returns, without error, a new map that is empty, stores it under the key and
leaves the other keys of `m` and the other maps as they were; a second `lookupObject` then
returns that same map and changes nothing, also after a write into the returned map, and
the written entry is read back through it.  When the key already maps to an object, that
object is returned and nothing changes. -/
theorem lookupObject_lookup_or_create (h : Heap) (m : Ref) (key : String)
    (hm : m < h.length) :
    ((h.index m key = none ∨ h.index m key = some .null) →
      ∃ (result : Ref) (h2 : Heap),
        lookupObject h m key = ((some result, none), h2) ∧
        h.length ≤ result ∧ h2.load result = [] ∧
        h2.index m key = some (.object result) ∧
        (∀ k2, k2 ≠ key → h2.index m k2 = h.index m k2) ∧
        (∀ r, r < h.length → r ≠ m → h2.load r = h.load r) ∧
        lookupObject h2 m key = ((some result, none), h2) ∧
        (∀ k2 v, lookupObject (h2.assign result k2 v) m key
            = ((some result, none), h2.assign result k2 v) ∧
          (h2.assign result k2 v).index result k2 = some v)) ∧
    (∀ r, h.index m key = some (.object r) → lookupObject h m key = ((some r, none), h)) := by
  refine ⟨fun habs => ?_, fun r hr => lookupObject_of_object h m key r hr⟩
  have hne : h.length ≠ m := Nat.ne_of_gt hm
  have hm1 : m < h.alloc.2.length := by
    simp only [Heap.alloc, List.length_append, List.length_singleton]
    exact Nat.lt_succ_of_lt hm
  have hidx : (h.alloc.2.assign m key (.object h.length)).index m key
      = some (.object h.length) := index_assign_self _ m key _ hm1
  refine ⟨h.length, h.alloc.2.assign m key (.object h.length),
    lookupObject_of_absent h m key habs, le_refl _, ?_, hidx, ?_, ?_, ?_, ?_⟩
  · rw [load_assign_of_ne _ m h.length key _ hne]
    exact load_alloc_new h
  · intro k2 hk2
    rw [index_assign_of_key_ne _ m key k2 _ hm1 hk2, Heap.index, load_alloc_of_lt h m hm,
      Heap.index]
  · intro r hr hrm
    rw [load_assign_of_ne _ m r key _ hrm, load_alloc_of_lt h r hr]
  · exact lookupObject_of_object _ m key _ hidx
  · intro k2 v
    constructor
    · apply lookupObject_of_object
      rw [index_assign_of_ref_ne _ h.length m k2 key v (fun e => hne e.symm)]
      exact hidx
    · apply index_assign_self
      rw [length_assign]
      simp [Heap.alloc]

theorem lookupObject_lookup_or_create_witness :
    0 < List.length [[("Image", Value.string "ubuntu"), ("HostConfig", Value.null)]] ∧
    lookupObject [[("Image", .string "ubuntu"), ("HostConfig", .null)]] 0 "HostConfig"
      = ((some 1, none), [[("Image", .string "ubuntu"), ("HostConfig", .object 1)], []]) ∧
    ∃ (result : Ref) (h2 : Heap),
      lookupObject [[("Image", .string "ubuntu"), ("HostConfig", .null)]] 0 "HostConfig"
        = ((some result, none), h2) ∧
      h2.load result = [] ∧
      h2.index 0 "HostConfig" = some (.object result) ∧
      h2.index 0 "Image" = some (.string "ubuntu") ∧
      lookupObject h2 0 "HostConfig" = ((some result, none), h2) ∧
      lookupObject (h2.assign result "NetworkMode" (.string "bridge")) 0 "HostConfig"
        = ((some result, none), h2.assign result "NetworkMode" (.string "bridge")) ∧
      (h2.assign result "NetworkMode" (.string "bridge")).index result "NetworkMode"
        = some (.string "bridge") := by
  refine ⟨by decide, rfl, ?_⟩
  obtain ⟨result, h2, h1, -, h3, h4, h5, -, h7, h8⟩ :=
    (lookupObject_lookup_or_create
      [[("Image", .string "ubuntu"), ("HostConfig", .null)]] 0 "HostConfig" (by decide)).1
      (Or.inr rfl)
  exact ⟨result, h2, h1, h3, h4, (h5 "Image" (by decide)).trans rfl, h7,
    (h8 "NetworkMode" (.string "bridge")).1, (h8 "NetworkMode" (.string "bridge")).2⟩

/-- C12: when the key is absent or mapped to `nil`, `lookupString` returns the empty string
and `lookupStringArray` the empty list, both without error; when the key maps to a string,
`lookupString` returns that string without error. -/
theorem lookupString_zero_value (h : Heap) (m : Ref) (key : String) :
    ((h.index m key = none ∨ h.index m key = some .null) →
      (lookupString h m key).1 = ("", none) ∧
      (lookupStringArray h m key).1 = ([], none)) ∧
    (∀ s, h.index m key = some (.string s) → (lookupString h m key).1 = (s, none)) := by
  constructor
  · rintro (e | e) <;> simp [lookupString, lookupStringArray, e]
  · intro s e
    simp [lookupString, e]

/-- C13: `lookupObject`, `lookupString` and `lookupStringArray` return an error exactly
when the key is present with a value that is not `nil` and is, respectively, no object, no
string, and neither a `[]string` nor a list made of strings only; a number fails all three.
The error always carries the key as `Field`, `"object"`, `"string"` or
`"array of strings"` as `Expected`, and the whole value under the key as `Got`. -/
theorem lookup_errors (h : Heap) (m : Ref) (key : String) :
    ((lookupObject h m key).1.2 ≠ none ↔
      ∃ v, h.index m key = some v ∧ v ≠ .null ∧ ∀ r, v ≠ .object r) ∧
    ((lookupString h m key).1.2 ≠ none ↔
      ∃ v, h.index m key = some v ∧ v ≠ .null ∧ ∀ s, v ≠ .string s) ∧
    ((lookupStringArray h m key).1.2 ≠ none ↔
      ∃ v, h.index m key = some v ∧ v ≠ .null ∧ (∀ l, v ≠ .strings l) ∧
        ∀ ss : List String, v ≠ .array (ss.map Value.string)) ∧
    (∀ e, (lookupObject h m key).1.2 = some e →
      e.Field = key ∧ e.Expected = "object" ∧ h.index m key = some e.Got) ∧
    (∀ e, (lookupString h m key).1.2 = some e →
      e.Field = key ∧ e.Expected = "string" ∧ h.index m key = some e.Got) ∧
    (∀ e, (lookupStringArray h m key).1.2 = some e →
      e.Field = key ∧ e.Expected = "array of strings" ∧ h.index m key = some e.Got) ∧
    (∀ n, h.index m key = some (.number n) →
      (lookupObject h m key).1 = (none, some ⟨key, "object", .number n⟩) ∧
      (lookupString h m key).1 = ("", some ⟨key, "string", .number n⟩) ∧
      (lookupStringArray h m key).1 = ([], some ⟨key, "array of strings", .number n⟩)) := by
  have harr : ∀ o : List Value, h.index m key = some (.array o) →
      (lookupStringArray h m key).1 = stringArrayLoop key (.array o) o [] := by
    intro o e
    simp [lookupStringArray, e]
  refine ⟨?_, ?_, ?_, ?_, ?_, ?_, ?_⟩
  · cases e : h.index m key with
    | none => simp [lookupObject, e, Heap.alloc]
    | some v => cases v <;> simp [lookupObject, e, Heap.alloc]
  · cases e : h.index m key with
    | none => simp [lookupString, e]
    | some v => cases v <;> simp [lookupString, e]
  · cases e : h.index m key with
    | none => simp [lookupStringArray, e]
    | some v =>
      cases v with
      | array o =>
        rw [harr o e]
        rcases stringArrayLoop_cases key (.array o) o [] with
          ⟨ss, hss, hl⟩ | ⟨pre, x, post, hsplit, hx, hl⟩
        · rw [hl]
          simp only [ne_eq, not_true_eq_false, false_iff]
          rintro ⟨v, hv, -, -, hall⟩
          obtain rfl := Option.some.inj hv
          exact hall ss (by rw [hss])
        · rw [hl]
          simp only [ne_eq, reduceCtorEq, not_false_eq_true, true_iff]
          refine ⟨_, rfl, by simp, by simp, ?_⟩
          intro ss hh
          exact not_all_strings pre post x hx ss (hsplit ▸ Value.array.inj hh)
      | null => simp [lookupStringArray, e]
      | bool b => simp [lookupStringArray, e]
      | number n => simp [lookupStringArray, e]
      | string s => simp [lookupStringArray, e]
      | strings l => simp [lookupStringArray, e]
      | object r => simp [lookupStringArray, e]
  · intro err
    cases e : h.index m key with
    | none => simp [lookupObject, e, Heap.alloc]
    | some v =>
      cases v <;> simp [lookupObject, e, Heap.alloc] <;> rintro rfl <;> exact ⟨rfl, rfl, rfl⟩
  · intro err
    cases e : h.index m key with
    | none => simp [lookupString, e]
    | some v =>
      cases v <;> simp [lookupString, e] <;> rintro rfl <;> exact ⟨rfl, rfl, rfl⟩
  · intro err
    cases e : h.index m key with
    | none => simp [lookupStringArray, e]
    | some v =>
      cases v with
      | array o =>
        rw [harr o e]
        rcases stringArrayLoop_cases key (.array o) o [] with
          ⟨ss, -, hl⟩ | ⟨pre, x, post, -, -, hl⟩
        · rw [hl]
          simp
        · rw [hl]
          simp only [Option.some.injEq]
          rintro rfl
          exact ⟨rfl, rfl, rfl⟩
      | null => simp [lookupStringArray, e]
      | bool b => simp [lookupStringArray, e]; rintro rfl; exact ⟨rfl, rfl, rfl⟩
      | number n => simp [lookupStringArray, e]; rintro rfl; exact ⟨rfl, rfl, rfl⟩
      | string s => simp [lookupStringArray, e]; rintro rfl; exact ⟨rfl, rfl, rfl⟩
      | strings l => simp [lookupStringArray, e]
      | object r => simp [lookupStringArray, e]; rintro rfl; exact ⟨rfl, rfl, rfl⟩
  · intro n e
    simp [lookupObject, lookupString, lookupStringArray, e]

theorem lookup_errors_witness :
    Heap.index [[("Env", Value.number 3)]] 0 "Env" = some (.number 3) ∧
    (lookupObject [[("Env", .number 3)]] 0 "Env").1
      = (none, some ⟨"Env", "object", .number 3⟩) ∧
    (lookupString [[("Env", .number 3)]] 0 "Env").1
      = ("", some ⟨"Env", "string", .number 3⟩) ∧
    (lookupStringArray [[("Env", .number 3)]] 0 "Env").1
      = ([], some ⟨"Env", "array of strings", .number 3⟩) :=
  ⟨rfl, (lookup_errors [[("Env", .number 3)]] 0 "Env").2.2.2.2.2.2 3 rfl⟩

/-- C14: when the key maps to a `[]string`, `lookupStringArray` returns that list as it
is; when it maps to a `[]interface{}`, the lookup succeeds exactly when every element is a
string, and then returns those strings in order, as many as the list has elements; an
element that is no string, at any position, makes the lookup fail with no list returned. -/
theorem lookupStringArray_lists (h : Heap) (m : Ref) (key : String) :
    (∀ l, h.index m key = some (.strings l) → (lookupStringArray h m key).1 = (l, none)) ∧
    (∀ o, h.index m key = some (.array o) →
      (∀ ss : List String, o = ss.map Value.string →
        (lookupStringArray h m key).1 = (ss, none) ∧ ss.length = o.length) ∧
      (∀ pre x post, o = pre ++ x :: post → (∀ s, x ≠ .string s) →
        (lookupStringArray h m key).1 =
          ([], some ⟨key, "array of strings", .array o⟩)) ∧
      ((lookupStringArray h m key).1.2 = none ↔ ∃ ss : List String, o = ss.map Value.string)) := by
  constructor
  · intro l e
    simp [lookupStringArray, e]
  · intro o e
    have harr : (lookupStringArray h m key).1 = stringArrayLoop key (.array o) o [] := by
      simp [lookupStringArray, e]
    rw [harr]
    refine ⟨?_, ?_, ?_⟩
    · intro ss hss
      subst hss
      exact ⟨stringArrayLoop_strings key _ ss, by simp⟩
    · intro pre x post hsplit hx
      subst hsplit
      exact stringArrayLoop_other key _ pre post x hx
    · rcases stringArrayLoop_cases key (.array o) o [] with
        ⟨ss, hss, hl⟩ | ⟨pre, x, post, hsplit, hx, hl⟩
      · rw [hl]
        simp only [true_iff]
        exact ⟨ss, hss⟩
      · rw [hl]
        simp only [reduceCtorEq, false_iff]
        rintro ⟨ss, hss⟩
        exact not_all_strings pre post x hx ss (hsplit ▸ hss)

theorem lookupStringArray_lists_witness :
    Heap.index [[("Env", Value.array [.string "A=1", .string "B=2"])]] 0 "Env"
      = some (.array [.string "A=1", .string "B=2"]) ∧
    ((lookupStringArray [[("Env", .array [.string "A=1", .string "B=2"])]] 0 "Env").1
        = (["A=1", "B=2"], none) ∧
      ["A=1", "B=2"].length = [Value.string "A=1", Value.string "B=2"].length) ∧
    (lookupStringArray [[("Env", .array [.string "A=1", .number 2, .string "C=3"])]] 0 "Env").1
      = ([], some ⟨"Env", "array of strings", .array [.string "A=1", .number 2, .string "C=3"]⟩) :=
  ⟨rfl,
    ((lookupStringArray_lists [[("Env", .array [.string "A=1", .string "B=2"])]] 0 "Env").2
      [.string "A=1", .string "B=2"] rfl).1 ["A=1", "B=2"] rfl,
    ((lookupStringArray_lists
        [[("Env", .array [.string "A=1", .number 2, .string "C=3"])]] 0 "Env").2
      [.string "A=1", .number 2, .string "C=3"] rfl).2.1 [.string "A=1"] (.number 2)
      [.string "C=3"] rfl (by simp)⟩

/-- C15: `lookupString` and `lookupStringArray` leave the heap, and so the map, exactly as
it was, whatever they return; a key that was absent is still absent afterwards.
`lookupObject` leaves the heap as it was when it returns an error. -/
theorem lookup_frame (h : Heap) (m : Ref) (key : String) :
    (lookupString h m key).2 = h ∧
    (lookupStringArray h m key).2 = h ∧
    ((lookupObject h m key).1.2 ≠ none → (lookupObject h m key).2 = h) ∧
    (h.index m key = none →
      (lookupString h m key).2.index m key = none ∧
      (lookupStringArray h m key).2.index m key = none) := by
  have h1 : (lookupString h m key).2 = h := by
    cases e : h.index m key with
    | none => simp [lookupString, e]
    | some v => cases v <;> simp [lookupString, e]
  have h2 : (lookupStringArray h m key).2 = h := by
    cases e : h.index m key with
    | none => simp [lookupStringArray, e]
    | some v => cases v <;> simp [lookupStringArray, e]
  refine ⟨h1, h2, ?_, ?_⟩
  · cases e : h.index m key with
    | none => simp [lookupObject, e, Heap.alloc]
    | some v => cases v <;> simp [lookupObject, e, Heap.alloc]
  · intro e
    rw [h1, h2]
    exact ⟨e, e⟩

/-! ## Lemmas on listen addresses -/

theorem cut_some_spec (sep s a b : List Char) (h : cut sep s = some (a, b)) :
    s = a ++ sep ++ b ∧ ∀ a2 b2, s = a2 ++ sep ++ b2 → a.length ≤ a2.length := by
  induction s generalizing a b with
  | nil => simp [cut] at h
  | cons c cs ih =>
    by_cases hp : sep.isPrefixOf (c :: cs) = true
    · simp only [cut, hp, if_true, Option.some.injEq, Prod.mk.injEq] at h
      obtain ⟨rfl, rfl⟩ := h
      obtain ⟨t, ht⟩ := List.isPrefixOf_iff_prefix.mp hp
      refine ⟨?_, fun a2 b2 _ => Nat.zero_le _⟩
      rw [← ht]
      simp
    · simp only [cut, hp] at h
      cases hc : cut sep cs with
      | none => simp [hc] at h
      | some ab =>
        obtain ⟨a1, b1⟩ := ab
        simp only [hc, Bool.false_eq_true, if_false, Option.some.injEq, Prod.mk.injEq] at h
        obtain ⟨rfl, rfl⟩ := h
        obtain ⟨hcs, hmin⟩ := ih a1 b1 hc
        refine ⟨by simp [hcs], ?_⟩
        intro a2 b2 h2
        cases a2 with
        | nil =>
          exfalso
          apply hp
          apply List.isPrefixOf_iff_prefix.mpr
          exact ⟨b2, by simpa using h2.symm⟩
        | cons d a3 =>
          simp only [List.cons_append, List.cons.injEq] at h2
          have := hmin a3 b2 (by simpa using h2.2)
          simp only [List.length_cons]
          omega

theorem cut_none_spec (sep s : List Char) (h : cut sep s = none) (a b : List Char) :
    s ≠ a ++ sep ++ b ∨ sep = [] := by
  induction s generalizing a with
  | nil =>
    by_cases hs : sep = []
    · exact Or.inr hs
    · left
      intro e
      have := congrArg List.length e
      simp only [List.length_nil, List.length_append] at this
      have hpos : 0 < sep.length := List.length_pos.mpr hs
      omega
  | cons c cs ih =>
    by_cases hp : sep.isPrefixOf (c :: cs) = true
    · simp [cut, hp] at h
    · simp only [cut, hp] at h
      cases hc : cut sep cs with
      | some ab => simp [hc] at h
      | none =>
        cases a with
        | nil =>
          left
          intro e
          apply hp
          apply List.isPrefixOf_iff_prefix.mpr
          exact ⟨b, by simpa using e.symm⟩
        | cons d a3 =>
          rcases ih hc a3 with h3 | h3
          · left
            intro e
            simp only [List.cons_append, List.cons.injEq] at e
            exact h3 (by simpa using e.2)
          · exact Or.inr h3

/-- The two outcomes of the first statement of `listen`. -/
theorem protoAndAddrOf_cases (s : String) :
    (∃ proto addr : String, s = proto ++ "://" ++ addr ∧
      (∀ p2 a2 : String, s = p2 ++ "://" ++ a2 → proto.data.length ≤ p2.data.length) ∧
      protoAndAddrOf s = (proto, addr)) ∨
    ((∀ p2 a2 : String, s ≠ p2 ++ "://" ++ a2) ∧
      protoAndAddrOf s = if HasPrefix s "/" then ("unix", s) else ("tcp", s)) := by
  cases hc : cut "://".data s.data with
  | some ab =>
    obtain ⟨a, b⟩ := ab
    obtain ⟨hs, hmin⟩ := cut_some_spec _ _ a b hc
    left
    refine ⟨⟨a⟩, ⟨b⟩, String.ext (by simpa using hs), ?_, ?_⟩
    · intro p2 a2 h2
      exact hmin p2.data a2.data (by rw [h2]; simp)
    · simp [protoAndAddrOf, SplitN, splitN, hc]
  | none =>
    right
    constructor
    · intro p2 a2 h2
      rcases cut_none_spec _ _ hc p2.data a2.data with h3 | h3
      · exact h3 (by rw [h2]; simp)
      · exact absurd h3 (by decide)
    · cases s with
      | mk d => simp [protoAndAddrOf, SplitN, splitN, hc]

theorem protoAndAddrOf_tcp (addr : String) :
    protoAndAddrOf ("tcp" ++ "://" ++ addr) = ("tcp", addr) := by
  cases addr with
  | mk d =>
    have hd : ("tcp" ++ "://" ++ String.mk d).data = 't' :: 'c' :: 'p' :: ':' :: '/' :: '/' :: d := by
      simp
    simp [protoAndAddrOf, SplitN, splitN, hd, cut]

theorem protoAndAddrOf_unix (addr : String) :
    protoAndAddrOf ("unix" ++ "://" ++ addr) = ("unix", addr) := by
  cases addr with
  | mk d =>
    have hd : ("unix" ++ "://" ++ String.mk d).data
        = 'u' :: 'n' :: 'i' :: 'x' :: ':' :: '/' :: '/' :: d := by
      simp
    simp [protoAndAddrOf, SplitN, splitN, hd, cut]

/-- A call of `listen` that returns without error returns a listener and the address
`proto://addr`. -/
theorem listen_returned_ok (sys : System) (tlsEnabled : Bool) (s : String)
    (l : Option Listener) (n : String)
    (h : (listen sys tlsEnabled s).1 = .returned l n none) :
    n = (protoAndAddrOf s).1 ++ "://" ++ (protoAndAddrOf s).2 ∧ l ≠ none := by
  unfold listen at h
  simp only at h
  split at h
  · split at h
    · simp at h
    · simp only [ListenResult.returned.injEq] at h
      obtain ⟨hl, hn, -⟩ := h
      exact ⟨hn.symm, by rw [← hl]; simp⟩
  · split at h
    · have key : ∀ removed, (listenUnix sys (protoAndAddrOf s).1 (protoAndAddrOf s).2 removed).1
          = .returned l n none →
          n = (protoAndAddrOf s).1 ++ "://" ++ (protoAndAddrOf s).2 ∧ l ≠ none := by
        intro removed hu
        unfold listenUnix at hu
        split at hu
        · simp at hu
        · split at hu
          · simp at hu
          · simp only [ListenResult.returned.injEq] at hu
            obtain ⟨hl, hn, -⟩ := hu
            exact ⟨hn.symm, by rw [← hl]; simp⟩
      split at h
      · split at h
        · simp at h
        · exact key _ h
      · exact key _ h
    · simp at h

/-! ## Listen addresses: claims C16, C17 and C20 -/

/-- C16: when the specification contains `://`, the protocol is what stands before its
first occurrence and the address what stands after it; otherwise the protocol is `unix`
when the specification starts with `/` and `tcp` when it does not, the address being the
whole specification.  A call of `listen` that returns without error returns a listener and
the normalised address `protocol://address`. -/
theorem listen_resolution (s : String) :
    (∀ proto addr : String, s = proto ++ "://" ++ addr →
      (∀ p2 a2 : String, s = p2 ++ "://" ++ a2 → proto.length ≤ p2.length) →
      protoAndAddrOf s = (proto, addr)) ∧
    ((∀ p2 a2 : String, s ≠ p2 ++ "://" ++ a2) → HasPrefix s "/" = true →
      protoAndAddrOf s = ("unix", s)) ∧
    ((∀ p2 a2 : String, s ≠ p2 ++ "://" ++ a2) → HasPrefix s "/" = false →
      protoAndAddrOf s = ("tcp", s)) ∧
    (∀ (sys : System) (tlsEnabled : Bool) (l : Option Listener) (n : String),
      (listen sys tlsEnabled s).1 = .returned l n none →
      n = (protoAndAddrOf s).1 ++ "://" ++ (protoAndAddrOf s).2 ∧ l ≠ none) := by
  refine ⟨?_, ?_, ?_, fun sys tlsEnabled l n h => listen_returned_ok sys tlsEnabled s l n h⟩
  · intro proto addr hs hmin
    rcases protoAndAddrOf_cases s with ⟨p0, a0, hs0, hmin0, hres⟩ | ⟨hno, -⟩
    · have hlen : proto.data.length = p0.data.length := by
        have h1 := hmin p0 a0 hs0
        have h2 := hmin0 proto addr hs
        rw [length_eq_data_length, length_eq_data_length] at h1
        omega
      have hdata : proto.data ++ ("://".data ++ addr.data) = p0.data ++ ("://".data ++ a0.data) := by
        have := congrArg String.data (hs.symm.trans hs0)
        simpa using this
      obtain ⟨hp, hrest⟩ := List.append_inj hdata hlen
      have ha : addr.data = a0.data := List.append_cancel_left hrest
      rw [hres, String.ext hp, String.ext ha]
    · exact absurd hs (hno proto addr)
  · intro hno hslash
    rcases protoAndAddrOf_cases s with ⟨p0, a0, hs0, -, -⟩ | ⟨-, hres⟩
    · exact absurd hs0 (hno p0 a0)
    · rw [hres]
      simp [hslash]
  · intro hno hslash
    rcases protoAndAddrOf_cases s with ⟨p0, a0, hs0, -, -⟩ | ⟨-, hres⟩
    · exact absurd hs0 (hno p0 a0)
    · rw [hres]
      simp [hslash]

theorem listen_resolution_witness :
    protoAndAddrOf "/tmp/proxy.sock" = ("unix", "/tmp/proxy.sock") ∧
    protoAndAddrOf "0.0.0.0:2375" = ("tcp", "0.0.0.0:2375") ∧
    protoAndAddrOf "tcp://0.0.0.0:2375" = ("tcp", "0.0.0.0:2375") ∧
    ("tcp://0.0.0.0:2375" = (protoAndAddrOf "0.0.0.0:2375").1 ++ "://" ++
        (protoAndAddrOf "0.0.0.0:2375").2 ∧
      some (Listener.tls (.socket 7)) ≠ none) :=
  ⟨by decide, by decide, by decide,
    (listen_resolution "0.0.0.0:2375").2.2.2
      ⟨fun _ _ => .ok 7, fun _ => none, fun _ => false, fun _ => .ok ⟨0, none⟩,
        fun _ _ => none, fun _ _ _ => none⟩ true (some (.tls (.socket 7)))
      "tcp://0.0.0.0:2375" (by decide)⟩

/-- C17: when the protocol of the specification is neither `tcp` nor `unix`, `listen` ends
in `Log.Fatalf` with the protocol as argument: nothing is returned and no system call is
made, so no socket is bound and no file removed. -/
theorem listen_invalid_protocol (sys : System) (tlsEnabled : Bool) (s : String)
    (htcp : (protoAndAddrOf s).1 ≠ "tcp") (hunix : (protoAndAddrOf s).1 ≠ "unix") :
    listen sys tlsEnabled s = (.fatal "Invalid protocol format: %q" (protoAndAddrOf s).1, []) := by
  simp [listen, htcp, hunix]

theorem listen_invalid_protocol_witness :
    ((protoAndAddrOf "udp://x").1 ≠ "tcp" ∧ (protoAndAddrOf "udp://x").1 ≠ "unix" ∧
      listen ⟨fun _ _ => .ok 0, fun _ => none, fun _ => false, fun _ => .ok ⟨0, none⟩,
          fun _ _ => none, fun _ _ _ => none⟩ true "udp://x"
        = (.fatal "Invalid protocol format: %q" "udp", [])) ∧
    ((protoAndAddrOf "TCP://host:1").1 ≠ "tcp" ∧ (protoAndAddrOf "TCP://host:1").1 ≠ "unix" ∧
      listen ⟨fun _ _ => .ok 0, fun _ => none, fun _ => false, fun _ => .ok ⟨0, none⟩,
          fun _ _ => none, fun _ _ _ => none⟩ true "TCP://host:1"
        = (.fatal "Invalid protocol format: %q" "TCP", [])) ∧
    ((protoAndAddrOf "/tmp/a://b").1 ≠ "tcp" ∧ (protoAndAddrOf "/tmp/a://b").1 ≠ "unix" ∧
      listen ⟨fun _ _ => .ok 0, fun _ => none, fun _ => false, fun _ => .ok ⟨0, none⟩,
          fun _ _ => none, fun _ _ _ => none⟩ true "/tmp/a://b"
        = (.fatal "Invalid protocol format: %q" "/tmp/a", [])) :=
  ⟨⟨by decide, by decide,
      (listen_invalid_protocol _ true "udp://x" (by decide) (by decide)).trans (by decide)⟩,
    ⟨by decide, by decide,
      (listen_invalid_protocol _ true "TCP://host:1" (by decide) (by decide)).trans (by decide)⟩,
    ⟨by decide, by decide,
      (listen_invalid_protocol _ true "/tmp/a://b" (by decide) (by decide)).trans (by decide)⟩⟩

/-- C20: when the protocol of a specification is `tcp` or `unix`, resolving its normalised
address `protocol://address` gives the same protocol and the same address again, so the
normalised address of the normalised address is itself. -/
theorem listen_normalise_idempotent (s : String)
    (h : (protoAndAddrOf s).1 = "tcp" ∨ (protoAndAddrOf s).1 = "unix") :
    protoAndAddrOf ((protoAndAddrOf s).1 ++ "://" ++ (protoAndAddrOf s).2) = protoAndAddrOf s ∧
    (protoAndAddrOf ((protoAndAddrOf s).1 ++ "://" ++ (protoAndAddrOf s).2)).1 ++ "://" ++
        (protoAndAddrOf ((protoAndAddrOf s).1 ++ "://" ++ (protoAndAddrOf s).2)).2
      = (protoAndAddrOf s).1 ++ "://" ++ (protoAndAddrOf s).2 := by
  have key : protoAndAddrOf ((protoAndAddrOf s).1 ++ "://" ++ (protoAndAddrOf s).2)
      = protoAndAddrOf s := by
    rcases h with e | e
    · rw [e, protoAndAddrOf_tcp]
      exact Prod.ext e.symm rfl
    · rw [e, protoAndAddrOf_unix]
      exact Prod.ext e.symm rfl
  exact ⟨key, by rw [key]⟩

theorem listen_normalise_idempotent_witness :
    ((protoAndAddrOf "/tmp/proxy.sock").1 = "tcp" ∨ (protoAndAddrOf "/tmp/proxy.sock").1 = "unix") ∧
    (protoAndAddrOf "/tmp/proxy.sock").1 ++ "://" ++ (protoAndAddrOf "/tmp/proxy.sock").2
      = "unix:///tmp/proxy.sock" ∧
    protoAndAddrOf ((protoAndAddrOf "/tmp/proxy.sock").1 ++ "://" ++
        (protoAndAddrOf "/tmp/proxy.sock").2) = protoAndAddrOf "/tmp/proxy.sock" ∧
    (protoAndAddrOf ((protoAndAddrOf "/tmp/proxy.sock").1 ++ "://" ++
          (protoAndAddrOf "/tmp/proxy.sock").2)).1 ++ "://" ++
        (protoAndAddrOf ((protoAndAddrOf "/tmp/proxy.sock").1 ++ "://" ++
          (protoAndAddrOf "/tmp/proxy.sock").2)).2
      = (protoAndAddrOf "/tmp/proxy.sock").1 ++ "://" ++ (protoAndAddrOf "/tmp/proxy.sock").2 :=
  ⟨by decide, by decide,
    listen_normalise_idempotent "/tmp/proxy.sock" (by decide)⟩

/-! ## The router: claim C18 -/

theorem ServeHTTP_eq_dispatch (p : String) : ServeHTTP p = dispatch routeTable p := by
  simp [ServeHTTP, dispatch, routeTable]

/-- Every case of the table that matches a path carries the interceptor of its segment
class. -/
theorem routeTable_class (p : String) (e : Regex × Interceptor) (he : e ∈ routeTable)
    (hm : e.1.MatchString p = true) : e.2 = segClass (segments p.data) := by
  have hM := (matchString_iff e.1 p).mp hm
  simp only [routeTable, List.mem_cons, List.mem_singleton, List.not_mem_nil, or_false] at he
  rcases he with rfl | rfl | rfl | rfl | rfl
  · exact (create_class _ hM).symm
  · exact (start_class _ hM).symm
  · exact (inspect_class _ hM).symm
  · exact (execCreate_class _ hM).symm
  · exact (execInspect_class _ hM).symm

/-- The cases of the table carry different interceptors. -/
theorem routeTable_injective (e1 e2 : Regex × Interceptor) (h1 : e1 ∈ routeTable)
    (h2 : e2 ∈ routeTable) (h : e1.2 = e2.2) : e1 = e2 := by
  simp only [routeTable, List.mem_cons, List.mem_singleton, List.not_mem_nil, or_false]
    at h1 h2
  rcases h1 with rfl | rfl | rfl | rfl | rfl <;> rcases h2 with rfl | rfl | rfl | rfl | rfl <;>
    first
      | rfl
      | exact absurd h (by decide)

theorem dispatch_of_none (l : List (Regex × Interceptor)) (p : String)
    (h : ∀ e ∈ l, e.1.MatchString p = false) : dispatch l p = .nullInterceptor := by
  induction l with
  | nil => rfl
  | cons e rest ih =>
    obtain ⟨re, i⟩ := e
    have he : re.MatchString p = false := h (re, i) (List.mem_cons_self _ _)
    simp only [dispatch, he, Bool.false_eq_true, if_false]
    exact ih fun e2 h2 => h e2 (List.mem_cons_of_mem _ h2)

theorem dispatch_of_unique (l : List (Regex × Interceptor)) (p : String) (I : Interceptor)
    (hall : ∀ e ∈ l, e.1.MatchString p = true → e.2 = I)
    (hex : ∃ e ∈ l, e.1.MatchString p = true) : dispatch l p = I := by
  induction l with
  | nil =>
    obtain ⟨e, he, -⟩ := hex
    exact absurd he (List.not_mem_nil _)
  | cons e rest ih =>
    obtain ⟨re, i⟩ := e
    by_cases hm : re.MatchString p = true
    · simp only [dispatch, hm, if_true]
      exact hall (re, i) (List.mem_cons_self _ _) hm
    · simp only [dispatch, hm, if_false]
      apply ih
      · exact fun e2 h2 => hall e2 (List.mem_cons_of_mem _ h2)
      · obtain ⟨e2, he2, hm2⟩ := hex
        rcases List.mem_cons.mp he2 with rfl | hr
        · exact absurd hm2 hm
        · exact ⟨e2, hr, hm2⟩

/-- A switch over the same cases in any order selects what the segment class says. -/
theorem dispatch_perm (cases : List (Regex × Interceptor)) (hperm : cases.Perm routeTable)
    (p : String) : dispatch cases p = dispatch routeTable p := by
  by_cases hex : ∃ e ∈ routeTable, e.1.MatchString p = true
  · have hex2 : ∃ e ∈ cases, e.1.MatchString p = true := by
      obtain ⟨e, he, hm⟩ := hex
      exact ⟨e, hperm.mem_iff.mpr he, hm⟩
    rw [dispatch_of_unique routeTable p (segClass (segments p.data))
        (fun e he hm => routeTable_class p e he hm) hex,
      dispatch_of_unique cases p (segClass (segments p.data))
        (fun e he hm => routeTable_class p e (hperm.mem_iff.mp he) hm) hex2]
  · have hnone : ∀ e ∈ routeTable, e.1.MatchString p = false := by
      intro e he
      cases hm : e.1.MatchString p
      · rfl
      · exact absurd ⟨e, he, hm⟩ hex
    rw [dispatch_of_none routeTable p hnone,
      dispatch_of_none cases p (fun e he => hnone e (hperm.mem_iff.mp he))]

/-- Of five cases no two of which hold together, at most one holds. -/
theorem filter_five_le_one {α : Type} (f : α → Bool) (a1 a2 a3 a4 a5 : α)
    (h12 : f a1 = true → f a2 = true → False) (h13 : f a1 = true → f a3 = true → False)
    (h14 : f a1 = true → f a4 = true → False) (h15 : f a1 = true → f a5 = true → False)
    (h23 : f a2 = true → f a3 = true → False) (h24 : f a2 = true → f a4 = true → False)
    (h25 : f a2 = true → f a5 = true → False) (h34 : f a3 = true → f a4 = true → False)
    (h35 : f a3 = true → f a5 = true → False) (h45 : f a4 = true → f a5 = true → False) :
    ([a1, a2, a3, a4, a5].filter f).length ≤ 1 := by
  simp only [List.filter]
  cases b1 : f a1 <;> cases b2 : f a2 <;> cases b3 : f a3 <;> cases b4 : f a4 <;>
    cases b5 : f a5 <;> simp_all

/-- C18: for every path at most one of the five endpoint patterns matches: two cases of
the switch that both match are the same case.  So a switch over the five cases in any
order selects the interceptor that `ServeHTTP` selects. -/
theorem ServeHTTP_patterns_disjoint (p : String) :
    (∀ e1 ∈ routeTable, ∀ e2 ∈ routeTable,
      e1.1.MatchString p = true → e2.1.MatchString p = true → e1 = e2) ∧
    ((routeTable.filter fun e => e.1.MatchString p).length ≤ 1) ∧
    (∀ cases : List (Regex × Interceptor), cases.Perm routeTable →
      dispatch cases p = ServeHTTP p) := by
  have hpair : ∀ e1 ∈ routeTable, ∀ e2 ∈ routeTable,
      e1.1.MatchString p = true → e2.1.MatchString p = true → e1 = e2 := by
    intro e1 h1 e2 h2 m1 m2
    exact routeTable_injective e1 e2 h1 h2
      ((routeTable_class p e1 h1 m1).trans (routeTable_class p e2 h2 m2).symm)
  refine ⟨hpair, ?_, ?_⟩
  · have hne : ∀ e1 ∈ routeTable, ∀ e2 ∈ routeTable, e1.2 ≠ e2.2 →
        e1.1.MatchString p = true → e2.1.MatchString p = true → False := by
      intro e1 h1 e2 h2 hd m1 m2
      exact hd (congrArg Prod.snd (hpair e1 h1 e2 h2 m1 m2))
    have k1 : (containerCreateRegexp, Interceptor.createContainerInterceptor) ∈ routeTable :=
      List.Mem.head _
    have k2 : (containerStartRegexp, Interceptor.startContainerInterceptor) ∈ routeTable :=
      List.Mem.tail _ (List.Mem.head _)
    have k3 : (containerInspectRegexp, Interceptor.inspectContainerInterceptor) ∈ routeTable :=
      List.Mem.tail _ (List.Mem.tail _ (List.Mem.head _))
    have k4 : (execCreateRegexp, Interceptor.createExecInterceptor) ∈ routeTable :=
      List.Mem.tail _ (List.Mem.tail _ (List.Mem.tail _ (List.Mem.head _)))
    have k5 : (execInspectRegexp, Interceptor.inspectExecInterceptor) ∈ routeTable :=
      List.Mem.tail _ (List.Mem.tail _ (List.Mem.tail _ (List.Mem.tail _ (List.Mem.head _))))
    exact filter_five_le_one (fun e : Regex × Interceptor => e.1.MatchString p) _ _ _ _ _
      (hne _ k1 _ k2 (by decide)) (hne _ k1 _ k3 (by decide)) (hne _ k1 _ k4 (by decide))
      (hne _ k1 _ k5 (by decide)) (hne _ k2 _ k3 (by decide)) (hne _ k2 _ k4 (by decide))
      (hne _ k2 _ k5 (by decide)) (hne _ k3 _ k4 (by decide)) (hne _ k3 _ k5 (by decide))
      (hne _ k4 _ k5 (by decide))
  · intro cases hperm
    rw [ServeHTTP_eq_dispatch]
    exact dispatch_perm cases hperm p

/-! ## The start-container hook: claim C19 -/

/-- The error of the hook in the attach case. -/
theorem InterceptResponse_attach_error (w : World) (proxy : Config) (r : Response)
    (container : Container) (cidrs : List String)
    (hstatus : 200 ≤ r.StatusCode ∧ r.StatusCode < 300)
    (hinspect : w.inspectContainerInPath r.Path = .ok container)
    (hcidrs : weaveCIDRsFromConfig proxy container.HostConfig.NetworkMode container.Config.Env
      = (cidrs, none)) :
    (InterceptResponse w proxy r).1 =
      if (w.callWeave (attachArgs proxy cidrs container.ID)).2.2.isSome then
        some (.New (w.callWeave (attachArgs proxy cidrs container.ID)).2.1)
      else none := by
  have hs : ¬ (r.StatusCode < 200 ∨ 300 ≤ r.StatusCode) := by omega
  rcases hcw : w.callWeave (attachArgs proxy cidrs container.ID) with ⟨out, err, e⟩
  cases e with
  | some e => simp [InterceptResponse, hs, hinspect, hcidrs, hcw]
  | none =>
    by_cases hlen : err.length > 0
    · simp [InterceptResponse, hs, hinspect, hcidrs, hcw, hlen]
    · simp [InterceptResponse, hs, hinspect, hcidrs, hcw, hlen]

/-- The error of the hook when the inspection fails, and when the policy skips. -/
theorem InterceptResponse_other_error (w : World) (proxy : Config) (r : Response)
    (hstatus : 200 ≤ r.StatusCode ∧ r.StatusCode < 300) :
    (∀ e, w.inspectContainerInPath r.Path = .error e → (InterceptResponse w proxy r).1 = some e) ∧
    (∀ container cidrs err, w.inspectContainerInPath r.Path = .ok container →
      weaveCIDRsFromConfig proxy container.HostConfig.NetworkMode container.Config.Env
        = (cidrs, some err) →
      (InterceptResponse w proxy r).1 = none) := by
  have hs : ¬ (r.StatusCode < 200 ∨ 300 ≤ r.StatusCode) := by omega
  constructor
  · intro e he
    simp [InterceptResponse, hs, he]
  · intro container cidrs err hi hc
    simp [InterceptResponse, hs, hi, hc]

/-- C19: on a 2xx response with a successful inspection and an attach outcome, the hook
returns an error exactly when the invocation of the network tool reports one, and the
message of that error is the captured standard error; when the invocation reports none
the hook returns no error, whatever the captured standard error.  On a 2xx response
overall, the hook returns an error exactly when the inspection fails or the network tool is
invoked and reports an error. -/
theorem InterceptResponse_result (w : World) (proxy : Config) (r : Response)
    (hstatus : 200 ≤ r.StatusCode ∧ r.StatusCode < 300) :
    (∀ container cidrs, w.inspectContainerInPath r.Path = .ok container →
      weaveCIDRsFromConfig proxy container.HostConfig.NetworkMode container.Config.Env
        = (cidrs, none) →
      ((InterceptResponse w proxy r).1 ≠ none ↔
        (w.callWeave (attachArgs proxy cidrs container.ID)).2.2 ≠ none) ∧
      (∀ err, (InterceptResponse w proxy r).1 = some err →
        err.Error = (w.callWeave (attachArgs proxy cidrs container.ID)).2.1) ∧
      ((w.callWeave (attachArgs proxy cidrs container.ID)).2.2 = none →
        (InterceptResponse w proxy r).1 = none)) ∧
    ((InterceptResponse w proxy r).1 ≠ none ↔
      (∃ e, w.inspectContainerInPath r.Path = .error e) ∨
      ∃ container cidrs, w.inspectContainerInPath r.Path = .ok container ∧
        weaveCIDRsFromConfig proxy container.HostConfig.NetworkMode container.Config.Env
          = (cidrs, none) ∧
        (w.callWeave (attachArgs proxy cidrs container.ID)).2.2 ≠ none) := by
  have hattach : ∀ container cidrs, w.inspectContainerInPath r.Path = .ok container →
      weaveCIDRsFromConfig proxy container.HostConfig.NetworkMode container.Config.Env
        = (cidrs, none) →
      ((InterceptResponse w proxy r).1 ≠ none ↔
        (w.callWeave (attachArgs proxy cidrs container.ID)).2.2 ≠ none) := by
    intro container cidrs hi hc
    rw [InterceptResponse_attach_error w proxy r container cidrs hstatus hi hc]
    cases (w.callWeave (attachArgs proxy cidrs container.ID)).2.2 <;> simp
  constructor
  · intro container cidrs hi hc
    refine ⟨hattach container cidrs hi hc, ?_, ?_⟩
    · intro err
      rw [InterceptResponse_attach_error w proxy r container cidrs hstatus hi hc]
      cases (w.callWeave (attachArgs proxy cidrs container.ID)).2.2 with
      | none => simp
      | some e =>
        simp only [Option.isSome_some, if_true, Option.some.injEq]
        rintro rfl
        rfl
    · intro hnone
      rw [InterceptResponse_attach_error w proxy r container cidrs hstatus hi hc, hnone]
      simp
  · cases hi : w.inspectContainerInPath r.Path with
    | error e =>
      rw [(InterceptResponse_other_error w proxy r hstatus).1 e hi]
      simp
    | ok container =>
      rcases hc : weaveCIDRsFromConfig proxy container.HostConfig.NetworkMode
        container.Config.Env with ⟨cidrs, e⟩
      cases e with
      | some err =>
        rw [(InterceptResponse_other_error w proxy r hstatus).2 container cidrs err hi hc]
        simp only [ne_eq, not_true_eq_false, reduceCtorEq, exists_false, false_or, false_iff,
          not_exists, not_and]
        intro c2 cidrs2 hc2 hp
        obtain rfl := Except.ok.inj hc2
        rw [hc] at hp
        simp at hp
      | none =>
        rw [hattach container cidrs hi hc]
        constructor
        · intro hne
          exact Or.inr ⟨container, cidrs, rfl, hc, hne⟩
        · rintro (⟨e, he⟩ | ⟨c2, cidrs2, hc2, hp, hne⟩)
          · simp at he
          · obtain rfl := Except.ok.inj hc2
            rw [hc] at hp
            obtain rfl := (Prod.mk.inj hp).1
            exact hne

theorem InterceptResponse_result_witness :
    ((200 : Int) ≤ (Response.mk 204 "/containers/0a1b2c/start").StatusCode ∧
      (Response.mk 204 "/containers/0a1b2c/start").StatusCode < 300) ∧
    (InterceptResponse
        (World.mk (fun _ => .ok ⟨"0a1b2c", ⟨["WEAVE_CIDR=10.0.0.5/24"]⟩, ⟨"bridge"⟩⟩)
          (fun _ => ("", "no such container", some (.New "exit status 1"))))
        ⟨false, false⟩ ⟨204, "/containers/0a1b2c/start"⟩).1
      = some (.New "no such container") ∧
    (InterceptResponse
        (World.mk (fun _ => .ok ⟨"0a1b2c", ⟨["WEAVE_CIDR=10.0.0.5/24"]⟩, ⟨"bridge"⟩⟩)
          (fun _ => ("", "deprecated flag", none)))
        ⟨false, false⟩ ⟨204, "/containers/0a1b2c/start"⟩).1 = none ∧
    ((InterceptResponse
        (World.mk (fun _ => .ok ⟨"0a1b2c", ⟨["WEAVE_CIDR=10.0.0.5/24"]⟩, ⟨"bridge"⟩⟩)
          (fun _ => ("", "no such container", some (.New "exit status 1"))))
        ⟨false, false⟩ ⟨204, "/containers/0a1b2c/start"⟩).1 ≠ none ↔
      ((World.mk (fun _ => .ok ⟨"0a1b2c", ⟨["WEAVE_CIDR=10.0.0.5/24"]⟩, ⟨"bridge"⟩⟩)
          (fun _ => ("", "no such container", some (.New "exit status 1")))).callWeave
        (attachArgs ⟨false, false⟩ ["10.0.0.5/24"] "0a1b2c")).2.2 ≠ none) :=
  ⟨by decide, by decide, by decide,
    ((InterceptResponse_result
        (World.mk (fun _ => .ok ⟨"0a1b2c", ⟨["WEAVE_CIDR=10.0.0.5/24"]⟩, ⟨"bridge"⟩⟩)
          (fun _ => ("", "no such container", some (.New "exit status 1"))))
        ⟨false, false⟩ ⟨204, "/containers/0a1b2c/start"⟩ (by decide)).1
      ⟨"0a1b2c", ⟨["WEAVE_CIDR=10.0.0.5/24"]⟩, ⟨"bridge"⟩⟩ ["10.0.0.5/24"] rfl (by decide)).1⟩

end Proxy
